import Mathlib

/-!
Verification of the machq rotated-planar-code circuit synthesis core.

This file shallowly embeds the Python source of the machq repository:
noise profiles (machq/noise/basic_noise_model.py, machq/noise/_stim_noise.py),
the circuit builder (machq/types/_circuit_.py), the rotated planar code layout
and scheduler (machq/codes/rotated_planar_code.py), and the measurement-gadget
variant's detector lookback arithmetic
(machq/codes/rotated_planar_code_measurement_gadget.py).

Modelling conventions:
* Python floats become rationals.
* Python exceptions (ValueError) become the Except monad: an operation that
  raises returns an error value and produces no successor state, mirroring
  that the raise happens before any mutation whenever the source checks first.
* The stim circuit is an explicit instruction list; stim instruction names are
  reproduced as constructors plus the channel-name string for noise channels.
* Python dicts (the idle-tracking dictionary) become insertion-ordered
  association lists with Python assignment semantics (update in place if the
  key is present, append otherwise).
-/

/-! ## Noise channels (machq/noise/_stim_noise.py) -/

namespace NoiseChannels

/-- Depolarize1 from NoiseChannels: returns the stim channel name and strength. -/
def Depolarize1 (p : ℚ) : String × ℚ := ("DEPOLARIZE1", p)

/-- Depolarize2 from NoiseChannels. -/
def Depolarize2 (p : ℚ) : String × ℚ := ("DEPOLARIZE2", p)

/-- XError from NoiseChannels. -/
def XError (p : ℚ) : String × ℚ := ("X_ERROR", p)

/-- YError from NoiseChannels. -/
def YError (p : ℚ) : String × ℚ := ("Y_ERROR", p)

/-- ZError from NoiseChannels. -/
def ZError (p : ℚ) : String × ℚ := ("Z_ERROR", p)

end NoiseChannels

/-! ## Noise profiles (machq/noise/basic_noise_model.py) -/

/-- The five derived per-category rates held by a constructed noise profile. -/
structure NoiseProfile where
  single_qubit_gate_noise : String × ℚ
  two_qubit_gate_noise : String × ℚ
  measurement_flip_prob : ℚ
  reset_noise : ℚ
  idle_noise : String × ℚ
deriving DecidableEq, Repr

/-- NoiseProfile._check_valid_noise: raises ValueError unless 0 <= p <= 1. -/
def check_valid_noise (p : ℚ) : Except String Unit :=
  if 0 ≤ p ∧ p ≤ 1 then Except.ok () else Except.error "Invalid noise parameter passed."

/-- The record DepolarizingNoise.__init__ builds once validation has passed. -/
def DepolarizingNoise.fields (p : ℚ) : NoiseProfile :=
  { single_qubit_gate_noise := NoiseChannels.Depolarize1 p
    two_qubit_gate_noise := NoiseChannels.Depolarize2 p
    measurement_flip_prob := p
    reset_noise := p
    idle_noise := NoiseChannels.Depolarize1 p }

/-- DepolarizingNoise.__init__: check the parameter, then set every category from p. -/
def DepolarizingNoise (p : ℚ) : Except String NoiseProfile :=
  match check_valid_noise p with
  | Except.error e => Except.error e
  | Except.ok _ => Except.ok (DepolarizingNoise.fields p)

/-- CircuitLevelNoise.__init__: run the base constructor on p, then overwrite
everything except the two-qubit gate noise with the p/10 values. -/
def CircuitLevelNoise (p : ℚ) : Except String NoiseProfile :=
  match DepolarizingNoise p with
  | Except.error e => Except.error e
  | Except.ok base =>
      Except.ok { base with
        single_qubit_gate_noise := NoiseChannels.Depolarize1 (p / 10)
        measurement_flip_prob := p / 10
        reset_noise := p / 10
        idle_noise := NoiseChannels.Depolarize1 (p / 10) }

/-! ## Qubit coordinates (machq/types/_basic_types.py) -/

/-- A qubit coordinate. Components are rational to support the flag-qubit
offset of (0.5, 0.5). -/
structure Qubit where
  x : ℚ
  y : ℚ
deriving DecidableEq, Repr

/-- Coordinate-wise addition (Qubit.__add__). -/
def Qubit.add (q r : Qubit) : Qubit := ⟨q.x + r.x, q.y + r.y⟩

/-! ## The circuit instruction log (machq/types/_circuit_.py on top of stim) -/

/-- One entry of the stim instruction log, as appended by the builder. -/
inductive Instr where
  | qubitCoords (idx : ℕ) (coord : Qubit)
  | cx (targets : List ℕ)
  | hGate (targets : List ℕ)
  | noise (channel : String) (targets : List ℕ) (param : ℚ)
  | reset (targets : List ℕ)
  | measure (targets : List ℕ) (flipProb : ℚ)
  | tick
  | detector (lookbacks : List ℤ) (args : ℚ × ℚ × ℕ)
  | observableInclude (lookbacks : List ℤ)
deriving DecidableEq, Repr

/-- Python dict assignment d[k] = v on an insertion-ordered association list. -/
def dictSet (d : List (ℕ × ℕ)) (k v : ℕ) : List (ℕ × ℕ) :=
  if d.any (fun p => p.1 == k) then d.map (fun p => if p.1 == k then (k, v) else p)
  else d ++ [(k, v)]

/-- Python dict lookup: the value of the first entry carrying the key
(0 when the key is absent; the builder only reads present keys, and dictSet
keeps keys unique). -/
def dictGet : List (ℕ × ℕ) → ℕ → ℕ
  | [], _ => 0
  | p :: rest, k => if p.1 = k then p.2 else dictGet rest k

/-- The circuit builder state: the stim instruction log, the count of
registered qubits (self.valid_qubits), the idle-tracking dictionary
(self.idling_qubits) and the noise profile. -/
structure Circuit where
  instrs : List Instr
  valid_qubits : ℕ
  idling_qubits : List (ℕ × ℕ)
  noise_profile : NoiseProfile
deriving DecidableEq, Repr

namespace Circuit

/-- Circuit.__init__ (before any qubits are registered validation can never
succeed, modelled by a zero registered count). -/
def init (np : NoiseProfile) : Circuit :=
  { instrs := [], valid_qubits := 0, idling_qubits := [], noise_profile := np }

/-- Circuit.add_qubits with explicit coordinates: append one QUBIT_COORDS entry
per qubit, record the registered count, and initialize idle tracking. -/
def add_qubits (c : Circuit) (qubit_coords : List Qubit) : Circuit :=
  { c with
    instrs := c.instrs ++ qubit_coords.enum.map (fun p => Instr.qubitCoords p.1 p.2)
    valid_qubits := qubit_coords.length
    idling_qubits := qubit_coords.enum.foldl (fun d p => dictSet d p.1 0) c.idling_qubits }

/-- Circuit._check_qubits_exist: raise unless every index is below the
registered count. -/
def check_qubits_exist (c : Circuit) (qubits : List ℕ) : Except String Unit :=
  if qubits.all (fun x => x < c.valid_qubits) then Except.ok ()
  else Except.error "Not all qubit(s) are present in the circuit."

/-- Circuit.CX: reject an odd-length list, validate the indices, then append
the gate followed by the two-qubit noise channel and mark the qubits touched. -/
def CX (c : Circuit) (qubits : List ℕ) : Except String Circuit :=
  if qubits.length % 2 ≠ 0 then Except.error "Odd number of qubits passed to a CX gate."
  else
    match c.check_qubits_exist qubits with
    | Except.error e => Except.error e
    | Except.ok _ =>
      Except.ok { c with
        instrs := c.instrs ++
          [Instr.cx qubits,
           Instr.noise c.noise_profile.two_qubit_gate_noise.1 qubits
             c.noise_profile.two_qubit_gate_noise.2]
        idling_qubits := qubits.foldl (fun d q => dictSet d q 1) c.idling_qubits }

/-- Circuit.H: validate the indices, then append the gate followed by the
single-qubit noise channel and mark the qubits touched. -/
def H (c : Circuit) (qubits : List ℕ) : Except String Circuit :=
  match c.check_qubits_exist qubits with
  | Except.error e => Except.error e
  | Except.ok _ =>
    Except.ok { c with
      instrs := c.instrs ++
        [Instr.hGate qubits,
         Instr.noise c.noise_profile.single_qubit_gate_noise.1 qubits
           c.noise_profile.single_qubit_gate_noise.2]
      idling_qubits := qubits.foldl (fun d q => dictSet d q 1) c.idling_qubits }

/-- Circuit.time_step: apply the idle noise channel to every tracked qubit
whose touched flag is still 0 (omitting the instruction when there is none),
append the TICK marker and clear every flag. -/
def time_step (c : Circuit) (idle_noise : String × ℚ) : Circuit :=
  let idlers := (c.idling_qubits.filter (fun p => p.2 == 0)).map Prod.fst
  { c with
    instrs := c.instrs ++
      (if idlers.isEmpty then [] else [Instr.noise idle_noise.1 idlers idle_noise.2]) ++
      [Instr.tick]
    idling_qubits := c.idling_qubits.map (fun p => (p.1, 0)) }

/-- The largest qubit index referenced by an instruction, plus one
(stim semantics of circuit.num_qubits). -/
def instrNumQubits : Instr → ℕ
  | Instr.qubitCoords idx _ => idx + 1
  | Instr.cx ts => (ts.map (· + 1)).foldr max 0
  | Instr.hGate ts => (ts.map (· + 1)).foldr max 0
  | Instr.noise _ ts _ => (ts.map (· + 1)).foldr max 0
  | Instr.reset ts => (ts.map (· + 1)).foldr max 0
  | Instr.measure ts _ => (ts.map (· + 1)).foldr max 0
  | Instr.tick => 0
  | Instr.detector _ _ => 0
  | Instr.observableInclude _ => 0

/-- stim's circuit.num_qubits, used by reset_qubits for its default target set. -/
def num_qubits (c : Circuit) : ℕ :=
  (c.instrs.map instrNumQubits).foldr max 0

/-- Circuit.reset_qubits with the default X-error reset channel: append R and
the reset noise channel (defaulting to every circuit qubit) and mark the
qubits touched. No registration check is performed. -/
def reset_qubits (c : Circuit) (qubits : Option (List ℕ)) : Circuit :=
  let rn := NoiseChannels.XError c.noise_profile.reset_noise
  let qs := match qubits with
    | none => List.range c.num_qubits
    | some l => l
  { c with
    instrs := c.instrs ++ [Instr.reset qs, Instr.noise rn.1 qs rn.2]
    idling_qubits := qs.foldl (fun d q => dictSet d q 1) c.idling_qubits }

/-- Circuit.measure_qubits: append M carrying the configured flip probability
and mark the qubits touched. No registration check is performed. -/
def measure_qubits (c : Circuit) (qubits : List ℕ) : Circuit :=
  { c with
    instrs := c.instrs ++ [Instr.measure qubits c.noise_profile.measurement_flip_prob]
    idling_qubits := qubits.foldl (fun d q => dictSet d q 1) c.idling_qubits }

/-- Circuit.clear: stim circuit.clear() empties the instruction log; the
registered count and the idle-tracking dictionary are not touched. -/
def clear (c : Circuit) : Circuit := { c with instrs := [] }

/-- Circuit.detectors: extract the lookback lists and argument tuples, raise on
a length mismatch, and otherwise append one DETECTOR per zipped pair.
(The source also coerces a bare int lookback into a singleton list; lookbacks
are typed as lists here so the coercion is an identity.) -/
def detectors (c : Circuit) (lookbacks_and_args : List (List ℤ × (ℚ × ℚ × ℕ))) :
    Except String Circuit :=
  let lookback_indices := lookbacks_and_args.map Prod.fst
  let arguments := lookbacks_and_args.map Prod.snd
  if arguments.length ≠ lookback_indices.length then
    Except.error "Mismatch between lookback indices and arguments given."
  else
    Except.ok { c with
      instrs := c.instrs ++
        (lookback_indices.zip arguments).map (fun p => Instr.detector p.1 p.2) }

/-- Circuit.add_logical: append one OBSERVABLE_INCLUDE record. -/
def add_logical (c : Circuit) (indices : List ℤ) : Circuit :=
  { c with instrs := c.instrs ++ [Instr.observableInclude indices] }

end Circuit

/-! ## First theorems: noise construction (C7, C8), arity check (C9),
detector emission (C10) -/

/-- C9: For every qubit list of odd length, Circuit.CX fails, and the failure
occurs before any mutation: the parity test precedes the existence check and
every append, so the error is returned with no gate, noise or idle-flag
change recorded (the operation yields an error value and no successor state). -/
theorem CX_odd_length_fails (c : Circuit) (qs : List ℕ) (hodd : qs.length % 2 = 1) :
    c.CX qs = Except.error "Odd number of qubits passed to a CX gate." := by
  unfold Circuit.CX
  simp [hodd]

/-- Witness for CX_odd_length_fails at a concrete circuit and list. -/
theorem CX_odd_length_fails_witness :
    ([0, 1, 2] : List ℕ).length % 2 = 1 ∧
      (Circuit.init (DepolarizingNoise.fields 0)).CX [0, 1, 2] =
        Except.error "Odd number of qubits passed to a CX gate." :=
  ⟨by decide, CX_odd_length_fails _ _ (by decide)⟩

/-- C10: the mismatch branch of Circuit.detectors is unreachable: the two lists
extracted from the input always have equal length, so the operation succeeds
and appends exactly one detector per supplied pair. -/
theorem detectors_mismatch_unreachable (c : Circuit)
    (l : List (List ℤ × (ℚ × ℚ × ℕ))) :
    (l.map Prod.snd).length = (l.map Prod.fst).length ∧
      c.detectors l =
        Except.ok { c with instrs := c.instrs ++ l.map (fun p => Instr.detector p.1 p.2) } ∧
      (l.map (fun p => Instr.detector p.1 p.2)).length = l.length := by
  refine ⟨by simp, ?_, by simp⟩
  unfold Circuit.detectors
  simp [List.zip_map']

/-- C7: for p in the unit interval, every constructor succeeds, the
circuit-level two-qubit gate noise coincides with the depolarizing one at p,
and the four remaining categories coincide with the depolarizing values at
p/10. -/
theorem circuit_level_noise_scaling (p : ℚ) (h0 : 0 ≤ p) (h1 : p ≤ 1) :
    ∃ cl dn dnTenth,
      CircuitLevelNoise p = Except.ok cl ∧
      DepolarizingNoise p = Except.ok dn ∧
      DepolarizingNoise (p / 10) = Except.ok dnTenth ∧
      cl.two_qubit_gate_noise = dn.two_qubit_gate_noise ∧
      cl.single_qubit_gate_noise = dnTenth.single_qubit_gate_noise ∧
      cl.measurement_flip_prob = dnTenth.measurement_flip_prob ∧
      cl.reset_noise = dnTenth.reset_noise ∧
      cl.idle_noise = dnTenth.idle_noise := by
  have hv : check_valid_noise p = Except.ok () := by
    unfold check_valid_noise
    simp [h0, h1]
  have h0' : (0 : ℚ) ≤ p / 10 := by positivity
  have h1' : p / 10 ≤ 1 := by linarith
  have hv' : check_valid_noise (p / 10) = Except.ok () := by
    unfold check_valid_noise
    simp [h0', h1']
  refine ⟨{ DepolarizingNoise.fields p with
      single_qubit_gate_noise := NoiseChannels.Depolarize1 (p / 10)
      measurement_flip_prob := p / 10
      reset_noise := p / 10
      idle_noise := NoiseChannels.Depolarize1 (p / 10) },
    DepolarizingNoise.fields p, DepolarizingNoise.fields (p / 10),
    ?_, ?_, ?_, rfl, rfl, rfl, rfl, rfl⟩
  · unfold CircuitLevelNoise DepolarizingNoise
    rw [hv]
  · unfold DepolarizingNoise
    rw [hv]
  · unfold DepolarizingNoise
    rw [hv']

/-- Witness for circuit_level_noise_scaling at p = 1/2. -/
theorem circuit_level_noise_scaling_witness :
    ∃ cl dn dnTenth,
      CircuitLevelNoise (1 / 2) = Except.ok cl ∧
      DepolarizingNoise (1 / 2) = Except.ok dn ∧
      DepolarizingNoise (1 / 2 / 10) = Except.ok dnTenth ∧
      cl.two_qubit_gate_noise = dn.two_qubit_gate_noise ∧
      cl.single_qubit_gate_noise = dnTenth.single_qubit_gate_noise ∧
      cl.measurement_flip_prob = dnTenth.measurement_flip_prob ∧
      cl.reset_noise = dnTenth.reset_noise ∧
      cl.idle_noise = dnTenth.idle_noise :=
  circuit_level_noise_scaling (1 / 2) (by norm_num) (by norm_num)

/-- C8: constructing DepolarizingNoise or CircuitLevelNoise with base rate p
succeeds exactly when p lies in the unit interval; otherwise the validation
error is returned and no profile record is created. -/
theorem noise_construction_valid_iff (p : ℚ) :
    ((∃ prof, DepolarizingNoise p = Except.ok prof) ↔ (0 ≤ p ∧ p ≤ 1)) ∧
    ((∃ prof, CircuitLevelNoise p = Except.ok prof) ↔ (0 ≤ p ∧ p ≤ 1)) ∧
    (¬ (0 ≤ p ∧ p ≤ 1) →
      DepolarizingNoise p = Except.error "Invalid noise parameter passed." ∧
      CircuitLevelNoise p = Except.error "Invalid noise parameter passed.") := by
  by_cases h : 0 ≤ p ∧ p ≤ 1
  · have hv : check_valid_noise p = Except.ok () := by
      unfold check_valid_noise
      simp [h.1, h.2]
    constructor
    · constructor
      · intro _
        exact h
      · intro _
        exact ⟨DepolarizingNoise.fields p, by unfold DepolarizingNoise; rw [hv]⟩
    constructor
    · constructor
      · intro _
        exact h
      · intro _
        refine ⟨{ DepolarizingNoise.fields p with
            single_qubit_gate_noise := NoiseChannels.Depolarize1 (p / 10)
            measurement_flip_prob := p / 10
            reset_noise := p / 10
            idle_noise := NoiseChannels.Depolarize1 (p / 10) }, ?_⟩
        unfold CircuitLevelNoise DepolarizingNoise
        rw [hv]
    · intro hc
      exact absurd h hc
  · have hv : check_valid_noise p = Except.error "Invalid noise parameter passed." := by
      unfold check_valid_noise
      simp [h]
    have hdn : DepolarizingNoise p = Except.error "Invalid noise parameter passed." := by
      unfold DepolarizingNoise
      rw [hv]
    have hcl : CircuitLevelNoise p = Except.error "Invalid noise parameter passed." := by
      unfold CircuitLevelNoise
      rw [hdn]
    refine ⟨⟨?_, fun hh => absurd hh h⟩, ⟨?_, fun hh => absurd hh h⟩, fun _ => ⟨hdn, hcl⟩⟩
    · rintro ⟨prof, hprof⟩
      rw [hdn] at hprof
      exact absurd hprof (by simp)
    · rintro ⟨prof, hprof⟩
      rw [hcl] at hprof
      exact absurd hprof (by simp)

/-- Witness for noise_construction_valid_iff: at p = 2 both constructors fail
with the validation error, as the third conjunct states. -/
theorem noise_construction_valid_iff_witness :
    DepolarizingNoise 2 = Except.error "Invalid noise parameter passed." ∧
    CircuitLevelNoise 2 = Except.error "Invalid noise parameter passed." :=
  (noise_construction_valid_iff 2).2.2 (by norm_num)

/-! ## C2: which operations validate qubit references, and C5: clear -/

/-- C2 (amended): CX and H validate indices against the registered count and
fail with the out-of-range error, returning an error value and no successor
state (the log is untouched); measure_qubits and reset_qubits perform no such
check and append their instructions unconditionally. -/
theorem qubit_reference_validation (c : Circuit) (qs : List ℕ) (q : ℕ)
    (hq : q ∈ qs) (hge : c.valid_qubits ≤ q) :
    (qs.length % 2 = 0 →
      c.CX qs = Except.error "Not all qubit(s) are present in the circuit.") ∧
    c.H qs = Except.error "Not all qubit(s) are present in the circuit." ∧
    (c.measure_qubits qs).instrs =
      c.instrs ++ [Instr.measure qs c.noise_profile.measurement_flip_prob] ∧
    (c.reset_qubits (some qs)).instrs =
      c.instrs ++ [Instr.reset qs, Instr.noise "X_ERROR" qs c.noise_profile.reset_noise] := by
  have hchk : c.check_qubits_exist qs =
      Except.error "Not all qubit(s) are present in the circuit." := by
    unfold Circuit.check_qubits_exist
    have : ¬ qs.all (fun x => decide (x < c.valid_qubits)) = true := by
      simp only [List.all_eq_true]
      intro hall
      have := hall q hq
      simp at this
      omega
    simp [this]
  refine ⟨?_, ?_, rfl, rfl⟩
  · intro heven
    unfold Circuit.CX
    rw [hchk]
    simp [heven]
  · unfold Circuit.H
    rw [hchk]

/-- Witness for qubit_reference_validation: one registered qubit, reference 5. -/
theorem qubit_reference_validation_witness :
    (([5] : List ℕ).length % 2 = 0 →
      ((Circuit.init (DepolarizingNoise.fields 0)).add_qubits [⟨0, 0⟩]).CX [5] =
        Except.error "Not all qubit(s) are present in the circuit.") ∧
    ((Circuit.init (DepolarizingNoise.fields 0)).add_qubits [⟨0, 0⟩]).H [5] =
      Except.error "Not all qubit(s) are present in the circuit." ∧
    (((Circuit.init (DepolarizingNoise.fields 0)).add_qubits [⟨0, 0⟩]).measure_qubits [5]).instrs =
      ((Circuit.init (DepolarizingNoise.fields 0)).add_qubits [⟨0, 0⟩]).instrs ++
        [Instr.measure [5]
          ((Circuit.init (DepolarizingNoise.fields 0)).add_qubits
            [⟨0, 0⟩]).noise_profile.measurement_flip_prob] ∧
    (((Circuit.init (DepolarizingNoise.fields 0)).add_qubits [⟨0, 0⟩]).reset_qubits
        (some [5])).instrs =
      ((Circuit.init (DepolarizingNoise.fields 0)).add_qubits [⟨0, 0⟩]).instrs ++
        [Instr.reset [5],
         Instr.noise "X_ERROR" [5]
          ((Circuit.init (DepolarizingNoise.fields 0)).add_qubits
            [⟨0, 0⟩]).noise_profile.reset_noise] :=
  qubit_reference_validation _ [5] 5 (by decide) (by decide)

/-- Counterexample to C2 as stated: measure_qubits on an unregistered index
does not fail with an out-of-range error; it succeeds and appends the
measurement, so the log does change. -/
theorem measure_unregistered_counterexample :
    ((Circuit.init (DepolarizingNoise.fields 0)).add_qubits [⟨0, 0⟩]).valid_qubits = 1 ∧
    (((Circuit.init (DepolarizingNoise.fields 0)).add_qubits [⟨0, 0⟩]).measure_qubits [5]).instrs =
      [Instr.qubitCoords 0 ⟨0, 0⟩, Instr.measure [5] 0] := by
  constructor
  · rfl
  · rfl

/-- C5 (amended): clear empties the instruction log and preserves the
registered-qubit count, but leaves the idle-tracking dictionary (its keys and
its touched flags) unchanged rather than emptying it. -/
theorem clear_behavior (c : Circuit) :
    (c.clear).instrs = [] ∧
    (c.clear).valid_qubits = c.valid_qubits ∧
    (c.clear).idling_qubits = c.idling_qubits :=
  ⟨rfl, rfl, rfl⟩

/-- Counterexample to C5 as stated: after touching a qubit, clear leaves the
idle-tracking dictionary holding the stale touched flag instead of emptying
the idle-tracking state. -/
theorem clear_counterexample :
    ((((Circuit.init (DepolarizingNoise.fields 0)).add_qubits [⟨0, 0⟩]).H [0]).map
        (fun c1 => (Circuit.clear c1).idling_qubits)) = Except.ok [(0, 1)] ∧
    ([((0 : ℕ), (1 : ℕ))] : List (ℕ × ℕ)) ≠ [] := by
  constructor
  · rfl
  · decide

/-! ## C3: the idle-noise invariant for sequences of builder operations -/

/-- The keys of the idle-tracking dictionary, in insertion order. -/
def dictKeys (d : List (ℕ × ℕ)) : List ℕ := d.map Prod.fst

/-- The number of noise events an instruction list inflicts on qubit q: one per
occurrence of q in a noise-channel instruction target list, and one per
occurrence of q in a measurement (whose flip probability is its paired noise). -/
def noiseEventsOn (q : ℕ) (l : List Instr) : ℕ :=
  (l.map (fun i => match i with
    | Instr.noise _ ts _ => ts.count q
    | Instr.measure ts _ => ts.count q
    | _ => 0)).sum

theorem noiseEventsOn_append (q : ℕ) (a b : List Instr) :
    noiseEventsOn q (a ++ b) = noiseEventsOn q a + noiseEventsOn q b := by
  simp [noiseEventsOn]

theorem any_key_iff (d : List (ℕ × ℕ)) (k : ℕ) :
    (d.any (fun p => p.1 == k)) = true ↔ k ∈ dictKeys d := by
  simp [List.any_eq_true, dictKeys, List.mem_map, beq_iff_eq]

theorem dictKeys_dictSet (d : List (ℕ × ℕ)) (k v : ℕ) :
    dictKeys (dictSet d k v) =
      if k ∈ dictKeys d then dictKeys d else dictKeys d ++ [k] := by
  have hmem := any_key_iff d k
  unfold dictSet dictKeys
  simp only [dictKeys] at hmem
  by_cases hk : k ∈ d.map Prod.fst
  · rw [if_pos (hmem.2 hk), if_pos hk, List.map_map]
    apply List.map_congr_left
    intro p _
    by_cases hp : p.1 = k
    · simp [hp]
    · simp [hp]
  · rw [if_neg (fun hc => hk (hmem.1 hc)), if_neg hk]
    simp

theorem mem_dictKeys_dictSet (d : List (ℕ × ℕ)) (k v k' : ℕ) :
    k' ∈ dictKeys (dictSet d k v) ↔ k' ∈ dictKeys d ∨ k' = k := by
  rw [dictKeys_dictSet]
  by_cases hk : k ∈ dictKeys d
  · rw [if_pos hk]
    constructor
    · exact Or.inl
    · rintro (h | rfl)
      · exact h
      · exact hk
  · rw [if_neg hk]
    simp

theorem nodup_dictKeys_dictSet (d : List (ℕ × ℕ)) (k v : ℕ)
    (hnd : (dictKeys d).Nodup) : (dictKeys (dictSet d k v)).Nodup := by
  rw [dictKeys_dictSet]
  by_cases hk : k ∈ dictKeys d
  · rwa [if_pos hk]
  · rw [if_neg hk]
    simp [List.nodup_append, hnd, hk]

theorem dictGet_mapSet_self (k v : ℕ) :
    ∀ d : List (ℕ × ℕ),
      dictGet (d.map (fun p => if p.1 == k then (k, v) else p)) k =
        if k ∈ dictKeys d then v else 0
  | [] => by simp [dictGet, dictKeys]
  | p :: rest => by
    have ih := dictGet_mapSet_self k v rest
    by_cases hp : p.1 = k
    · simp [dictGet, dictKeys, hp]
    · have hkeys : dictKeys (p :: rest) = p.1 :: dictKeys rest := rfl
      simp only [List.map_cons, if_neg (show ¬(p.1 == k) = true by simpa using hp),
        dictGet, if_neg hp, hkeys]
      rw [ih]
      by_cases hmem : k ∈ dictKeys rest
      · rw [if_pos hmem, if_pos (List.mem_cons_of_mem _ hmem)]
      · rw [if_neg hmem, if_neg ?_]
        intro h
        rcases List.mem_cons.1 h with h | h
        · exact hp h.symm
        · exact hmem h

theorem dictGet_mapSet_ne (k v k' : ℕ) (hne : k' ≠ k) :
    ∀ d : List (ℕ × ℕ),
      dictGet (d.map (fun p => if p.1 == k then (k, v) else p)) k' = dictGet d k'
  | [] => rfl
  | p :: rest => by
    have ih := dictGet_mapSet_ne k v k' hne rest
    by_cases hp : p.1 = k
    · simp only [List.map_cons, if_pos (show (p.1 == k) = true by simpa using hp),
        dictGet]
      rw [if_neg (fun h => hne h.symm), if_neg (fun h => hne ((hp ▸ h : k = k')).symm), ih]
    · simp only [List.map_cons, if_neg (show ¬(p.1 == k) = true by simpa using hp),
        dictGet]
      by_cases hpk' : p.1 = k'
      · rw [if_pos hpk', if_pos hpk']
      · rw [if_neg hpk', if_neg hpk', ih]

theorem dictGet_append_single_self (k v : ℕ) :
    ∀ d : List (ℕ × ℕ),
      dictGet (d ++ [(k, v)]) k = if k ∈ dictKeys d then dictGet d k else v
  | [] => by simp [dictGet, dictKeys]
  | p :: rest => by
    have ih := dictGet_append_single_self k v rest
    by_cases hp : p.1 = k
    · simp [dictGet, dictKeys, hp]
    · have hkeys : dictKeys (p :: rest) = p.1 :: dictKeys rest := rfl
      simp only [List.cons_append, dictGet, if_neg hp, hkeys, List.append_eq]
      rw [ih]
      by_cases hmem : k ∈ dictKeys rest
      · rw [if_pos hmem, if_pos (List.mem_cons_of_mem _ hmem)]
      · rw [if_neg hmem, if_neg ?_]
        intro h
        rcases List.mem_cons.1 h with h | h
        · exact hp h.symm
        · exact hmem h

theorem dictGet_append_single_ne (k v k' : ℕ) (hne : k' ≠ k) :
    ∀ d : List (ℕ × ℕ), dictGet (d ++ [(k, v)]) k' = dictGet d k'
  | [] => by
    show dictGet [(k, v)] k' = 0
    simp only [dictGet, if_neg (fun h : k = k' => hne h.symm)]
  | p :: rest => by
    have ih := dictGet_append_single_ne k v k' hne rest
    simp only [List.cons_append, dictGet, List.append_eq]
    by_cases hp : p.1 = k'
    · rw [if_pos hp, if_pos hp]
    · rw [if_neg hp, if_neg hp, ih]

theorem dictGet_dictSet (d : List (ℕ × ℕ)) (k v k' : ℕ) :
    dictGet (dictSet d k v) k' = if k' = k then v else dictGet d k' := by
  unfold dictSet
  by_cases hany : (d.any (fun p => p.1 == k)) = true
  · rw [if_pos hany]
    have hk : k ∈ dictKeys d := (any_key_iff d k).1 hany
    by_cases hk' : k' = k
    · subst hk'
      rw [dictGet_mapSet_self, if_pos hk, if_pos rfl]
    · rw [dictGet_mapSet_ne k v k' hk', if_neg hk']
  · rw [if_neg hany]
    by_cases hk' : k' = k
    · subst hk'
      have hk : k' ∉ dictKeys d := fun h => hany ((any_key_iff d k').2 h)
      rw [dictGet_append_single_self, if_neg hk, if_pos rfl]
    · rw [dictGet_append_single_ne k v k' hk', if_neg hk']

theorem dictGet_foldl_set1 :
    ∀ (qs : List ℕ) (d : List (ℕ × ℕ)) (k : ℕ),
      dictGet (qs.foldl (fun d q => dictSet d q 1) d) k =
        if k ∈ qs then 1 else dictGet d k
  | [], d, k => by simp
  | q :: qs, d, k => by
    have ih := dictGet_foldl_set1 qs (dictSet d q 1) k
    simp only [List.foldl_cons]
    rw [ih, dictGet_dictSet]
    by_cases hq : k = q
    · subst hq
      by_cases hmem : k ∈ qs
      · rw [if_pos hmem, if_pos (List.mem_cons_self _ _)]
      · rw [if_neg hmem, if_pos rfl, if_pos (List.mem_cons_self _ _)]
    · by_cases hmem : k ∈ qs
      · rw [if_pos hmem, if_pos (List.mem_cons_of_mem _ hmem)]
      · rw [if_neg hmem, if_neg hq, if_neg ?_]
        intro h
        rcases List.mem_cons.1 h with h | h
        · exact hq h
        · exact hmem h

theorem mem_dictKeys_foldl_set1 :
    ∀ (qs : List ℕ) (d : List (ℕ × ℕ)) (k : ℕ),
      k ∈ dictKeys (qs.foldl (fun d q => dictSet d q 1) d) ↔
        k ∈ dictKeys d ∨ k ∈ qs
  | [], d, k => by simp
  | q :: qs, d, k => by
    have ih := mem_dictKeys_foldl_set1 qs (dictSet d q 1) k
    simp only [List.foldl_cons]
    rw [ih, mem_dictKeys_dictSet]
    constructor
    · rintro ((h | h) | h)
      · exact Or.inl h
      · exact Or.inr (h ▸ List.mem_cons_self _ _)
      · exact Or.inr (List.mem_cons_of_mem _ h)
    · rintro (h | h)
      · exact Or.inl (Or.inl h)
      · rcases List.mem_cons.1 h with h | h
        · exact Or.inl (Or.inr h)
        · exact Or.inr h

theorem nodup_dictKeys_foldl_set1 :
    ∀ (qs : List ℕ) (d : List (ℕ × ℕ)),
      (dictKeys d).Nodup →
        (dictKeys (qs.foldl (fun d q => dictSet d q 1) d)).Nodup
  | [], d, h => h
  | q :: qs, d, h => by
    simp only [List.foldl_cons]
    exact nodup_dictKeys_foldl_set1 qs _ (nodup_dictKeys_dictSet d q 1 h)

/-! Operation sequences between two time-step boundaries. -/

/-- One builder operation carrying its explicit qubit-index targets. -/
inductive Op where
  | cx (qubits : List ℕ)
  | hGate (qubits : List ℕ)
  | reset (qubits : List ℕ)
  | measure (qubits : List ℕ)
deriving DecidableEq, Repr

/-- The qubit indices an operation references. -/
def Op.targets : Op → List ℕ
  | Op.cx qs => qs
  | Op.hGate qs => qs
  | Op.reset qs => qs
  | Op.measure qs => qs

/-- Dispatch one operation to the builder method it names. -/
def runOp (c : Circuit) : Op → Except String Circuit
  | Op.cx qs => c.CX qs
  | Op.hGate qs => c.H qs
  | Op.reset qs => Except.ok (c.reset_qubits (some qs))
  | Op.measure qs => Except.ok (c.measure_qubits qs)

/-- Run a sequence of builder operations, stopping at the first error
(a raised ValueError aborts the Python caller the same way). -/
def runOps (c : Circuit) : List Op → Except String Circuit
  | [] => Except.ok c
  | op :: rest =>
    match runOp c op with
    | Except.error e => Except.error e
    | Except.ok c2 => runOps c2 rest

theorem runOp_ok_spec (c c2 : Circuit) (op : Op) (h : runOp c op = Except.ok c2) :
    c2.valid_qubits = c.valid_qubits ∧ c2.noise_profile = c.noise_profile ∧
    c2.idling_qubits = op.targets.foldl (fun d q => dictSet d q 1) c.idling_qubits ∧
    ∃ L, c2.instrs = c.instrs ++ L ∧ ∀ q, noiseEventsOn q L = op.targets.count q := by
  cases op with
  | cx qs =>
    simp only [runOp] at h
    rw [Circuit.CX] at h
    by_cases hpar : qs.length % 2 ≠ 0
    · rw [if_pos hpar] at h
      exact absurd h (by simp)
    · rw [if_neg hpar] at h
      cases hchk : c.check_qubits_exist qs with
      | error e =>
        rw [hchk] at h
        exact absurd h (by simp)
      | ok u =>
        rw [hchk, Except.ok.injEq] at h
        subst h
        refine ⟨rfl, rfl, rfl,
          [Instr.cx qs, Instr.noise c.noise_profile.two_qubit_gate_noise.1 qs
            c.noise_profile.two_qubit_gate_noise.2], rfl, ?_⟩
        intro q
        simp [noiseEventsOn, Op.targets]
  | hGate qs =>
    simp only [runOp] at h
    rw [Circuit.H] at h
    cases hchk : c.check_qubits_exist qs with
    | error e =>
      rw [hchk] at h
      exact absurd h (by simp)
    | ok u =>
      rw [hchk, Except.ok.injEq] at h
      subst h
      refine ⟨rfl, rfl, rfl,
        [Instr.hGate qs, Instr.noise c.noise_profile.single_qubit_gate_noise.1 qs
          c.noise_profile.single_qubit_gate_noise.2], rfl, ?_⟩
      intro q
      simp [noiseEventsOn, Op.targets]
  | reset qs =>
    simp only [runOp, Circuit.reset_qubits, Except.ok.injEq] at h
    subst h
    refine ⟨rfl, rfl, rfl,
      [Instr.reset qs, Instr.noise "X_ERROR" qs c.noise_profile.reset_noise], rfl, ?_⟩
    intro q
    simp [noiseEventsOn, Op.targets, NoiseChannels.XError]
  | measure qs =>
    simp only [runOp, Circuit.measure_qubits, Except.ok.injEq] at h
    subst h
    refine ⟨rfl, rfl, rfl,
      [Instr.measure qs c.noise_profile.measurement_flip_prob], rfl, ?_⟩
    intro q
    simp [noiseEventsOn, Op.targets]

theorem runOps_ok_spec :
    ∀ (ops : List Op) (c c1 : Circuit), runOps c ops = Except.ok c1 →
      c1.valid_qubits = c.valid_qubits ∧ c1.noise_profile = c.noise_profile ∧
      (∀ k, dictGet c1.idling_qubits k =
        if (ops.flatMap Op.targets).count k = 0 then dictGet c.idling_qubits k else 1) ∧
      (∀ k, k ∈ dictKeys c.idling_qubits → k ∈ dictKeys c1.idling_qubits) ∧
      ((dictKeys c.idling_qubits).Nodup → (dictKeys c1.idling_qubits).Nodup) ∧
      ∃ L, c1.instrs = c.instrs ++ L ∧
        ∀ q, noiseEventsOn q L = (ops.flatMap Op.targets).count q
  | [], c, c1, h => by
    rw [runOps, Except.ok.injEq] at h
    subst h
    exact ⟨rfl, rfl, fun k => by simp, fun k hk => hk, fun h => h, [], by simp,
      fun q => by simp [noiseEventsOn]⟩
  | op :: rest, c, c1, h => by
    rw [runOps] at h
    cases hop : runOp c op with
    | error e =>
      rw [hop] at h
      exact absurd h (by simp)
    | ok c2 =>
      rw [hop] at h
      obtain ⟨hv2, hn2, hd2, L2, hi2, he2⟩ := runOp_ok_spec c c2 op hop
      obtain ⟨hv1, hn1, hget1, hmem1, hnd1, L1, hi1, he1⟩ := runOps_ok_spec rest c2 c1 h
      refine ⟨hv1.trans hv2, hn1.trans hn2, ?_, ?_, ?_, L2 ++ L1, ?_, ?_⟩
      · intro k
        rw [hget1 k, hd2, dictGet_foldl_set1]
        simp only [List.flatMap_cons, List.count_append]
        by_cases hopk : k ∈ op.targets
        · have hc : op.targets.count k ≠ 0 := by
            simpa [List.count_eq_zero] using hopk
          by_cases hrest : (rest.flatMap Op.targets).count k = 0
          · rw [if_pos hrest, if_pos hopk, if_neg (by omega)]
          · rw [if_neg hrest, if_neg (by omega)]
        · have hc : op.targets.count k = 0 := by
            simpa [List.count_eq_zero] using hopk
          by_cases hrest : (rest.flatMap Op.targets).count k = 0
          · rw [if_pos hrest, if_neg hopk, if_pos (by omega)]
          · rw [if_neg hrest, if_neg (by omega)]
      · intro k hk
        apply hmem1
        rw [hd2, mem_dictKeys_foldl_set1]
        exact Or.inl hk
      · intro hnd
        apply hnd1
        rw [hd2]
        exact nodup_dictKeys_foldl_set1 _ _ hnd
      · rw [hi1, hi2, List.append_assoc]
      · intro q
        rw [noiseEventsOn_append, he2, he1]
        simp [List.flatMap_cons, List.count_append]

theorem idlers_sublist (d : List (ℕ × ℕ)) :
    ((d.filter (fun p => p.2 == 0)).map Prod.fst).Sublist (dictKeys d) :=
  (d.filter_sublist).map Prod.fst

theorem mem_idlers_iff :
    ∀ (d : List (ℕ × ℕ)) (k : ℕ), (dictKeys d).Nodup →
      (k ∈ (d.filter (fun p => p.2 == 0)).map Prod.fst ↔
        k ∈ dictKeys d ∧ dictGet d k = 0)
  | [], k, _ => by simp [dictKeys, dictGet]
  | p :: rest, k, hnd => by
    have hkeys : dictKeys (p :: rest) = p.1 :: dictKeys rest := rfl
    rw [hkeys] at hnd
    have hpnot : p.1 ∉ dictKeys rest := (List.nodup_cons.1 hnd).1
    have ih := mem_idlers_iff rest k (List.nodup_cons.1 hnd).2
    have hmemc : k ∈ dictKeys (p :: rest) ↔ k = p.1 ∨ k ∈ dictKeys rest := by
      rw [hkeys]
      exact List.mem_cons
    have hgetc : dictGet (p :: rest) k = if p.1 = k then p.2 else dictGet rest k := rfl
    by_cases hp : p.1 = k
    · have hknotrest : k ∉ dictKeys rest := fun hm => hpnot (hp ▸ hm)
      have hknotidlers : k ∉ (rest.filter (fun p => p.2 == 0)).map Prod.fst :=
        fun hm => hknotrest ((idlers_sublist rest).subset hm)
      by_cases hz : p.2 = 0
      · rw [List.filter_cons, if_pos (show (p.2 == 0) = true by simpa using hz),
          List.map_cons]
        constructor
        · intro _
          exact ⟨hmemc.2 (Or.inl hp.symm), by rw [hgetc, if_pos hp, hz]⟩
        · intro _
          exact hp ▸ List.mem_cons_self _ _
      · rw [List.filter_cons, if_neg (show ¬(p.2 == 0) = true by simpa using hz)]
        constructor
        · intro hm
          exact absurd hm hknotidlers
        · rintro ⟨_, hg⟩
          rw [hgetc, if_pos hp] at hg
          exact absurd hg hz
    · have hred : (k ∈ dictKeys (p :: rest) ∧ dictGet (p :: rest) k = 0) ↔
          (k ∈ dictKeys rest ∧ dictGet rest k = 0) := by
        rw [hmemc, hgetc, if_neg hp]
        constructor
        · rintro ⟨hm | hm, hg⟩
          · exact absurd hm.symm hp
          · exact ⟨hm, hg⟩
        · rintro ⟨hm, hg⟩
          exact ⟨Or.inr hm, hg⟩
      by_cases hz : p.2 = 0
      · rw [List.filter_cons, if_pos (show (p.2 == 0) = true by simpa using hz),
          List.map_cons, hred]
        constructor
        · intro hm
          rcases List.mem_cons.1 hm with hm | hm
          · exact absurd hm.symm hp
          · exact ih.1 hm
        · intro hm
          exact List.mem_cons_of_mem _ (ih.2 hm)
      · rw [List.filter_cons, if_neg (show ¬(p.2 == 0) = true by simpa using hz), hred]
        exact ih

theorem count_idlers (d : List (ℕ × ℕ)) (k : ℕ) (hnd : (dictKeys d).Nodup) :
    ((d.filter (fun p => p.2 == 0)).map Prod.fst).count k =
      if k ∈ dictKeys d ∧ dictGet d k = 0 then 1 else 0 := by
  have hidnd : ((d.filter (fun p => p.2 == 0)).map Prod.fst).Nodup :=
    hnd.sublist (idlers_sublist d)
  by_cases h : k ∈ dictKeys d ∧ dictGet d k = 0
  · rw [if_pos h, List.count_eq_one_of_mem hidnd ((mem_idlers_iff d k hnd).2 h)]
  · rw [if_neg h,
      List.count_eq_zero_of_not_mem (fun hm => h ((mem_idlers_iff d k hnd).1 hm))]

theorem dictGet_eq_zero_of_all_zero :
    ∀ (d : List (ℕ × ℕ)) (q : ℕ), (∀ p ∈ d, p.2 = 0) → dictGet d q = 0
  | [], _, _ => rfl
  | p :: rest, q, h => by
    simp only [dictGet]
    by_cases hp : p.1 = q
    · rw [if_pos hp]
      exact h p (List.mem_cons_self _ _)
    · rw [if_neg hp]
      exact dictGet_eq_zero_of_all_zero rest q (fun r hr => h r (List.mem_cons_of_mem _ hr))

theorem time_step_spec (c : Circuit) (idle : String × ℚ)
    (hnd : (dictKeys c.idling_qubits).Nodup) :
    ∃ T, (c.time_step idle).instrs = c.instrs ++ T ∧
      ∀ q, noiseEventsOn q T =
        if q ∈ dictKeys c.idling_qubits ∧ dictGet c.idling_qubits q = 0 then 1 else 0 := by
  refine ⟨(if ((c.idling_qubits.filter (fun p => p.2 == 0)).map Prod.fst).isEmpty then []
      else [Instr.noise idle.1 ((c.idling_qubits.filter (fun p => p.2 == 0)).map Prod.fst)
        idle.2]) ++ [Instr.tick], ?_, ?_⟩
  · rw [Circuit.time_step]
    simp [List.append_assoc]
  · intro q
    rw [← count_idlers c.idling_qubits q hnd]
    by_cases hemp : ((c.idling_qubits.filter (fun p => p.2 == 0)).map Prod.fst).isEmpty
    · rw [if_pos hemp]
      have hnil : ((c.idling_qubits.filter (fun p => p.2 == 0)).map Prod.fst) = [] :=
        List.isEmpty_iff.1 hemp
      simp [noiseEventsOn, hnil]
    · rw [if_neg hemp]
      simp [noiseEventsOn]

/-- C3 (amended): between two step boundaries, for any sequence of builder
operations in which the registered qubit q is referenced at most once, the
instructions the operations append give q exactly as many noise events as q
has references (its operation-paired noise and nothing else), and after
close_time_step the total number of noise events on q since the previous
boundary is exactly one: paired noise when q was touched, one idle-noise event
when it was not, never both and never neither. The boundary state is
characterised by cleared touched flags, duplicate-free tracked keys, and every
registered qubit being tracked. Without the at-most-once restriction the
claimed invariant fails, see the counterexample. -/
theorem idle_noise_invariant (c0 c1 : Circuit) (ops : List Op) (idle : String × ℚ) (q : ℕ)
    (hnd : (dictKeys c0.idling_qubits).Nodup)
    (hzero : ∀ p ∈ c0.idling_qubits, p.2 = 0)
    (hreg : ∀ k, k < c0.valid_qubits → k ∈ dictKeys c0.idling_qubits)
    (hrun : runOps c0 ops = Except.ok c1)
    (hq : q < c0.valid_qubits)
    (honce : (ops.flatMap Op.targets).count q ≤ 1) :
    noiseEventsOn q (c1.instrs.drop c0.instrs.length) = (ops.flatMap Op.targets).count q ∧
    noiseEventsOn q ((c1.time_step idle).instrs.drop c0.instrs.length) = 1 := by
  obtain ⟨hv, hn, hget, hmem, hnd1, L, hi, he⟩ := runOps_ok_spec ops c0 c1 hrun
  have hdrop : c1.instrs.drop c0.instrs.length = L := by
    rw [hi]
    exact List.drop_left _ _
  obtain ⟨T, hT, hTe⟩ := time_step_spec c1 idle (hnd1 hnd)
  have hdrop2 : (c1.time_step idle).instrs.drop c0.instrs.length = L ++ T := by
    rw [hT, hi, List.append_assoc]
    exact List.drop_left _ _
  have hget0 : dictGet c0.idling_qubits q = 0 :=
    dictGet_eq_zero_of_all_zero _ _ hzero
  refine ⟨by rw [hdrop, he], ?_⟩
  rw [hdrop2, noiseEventsOn_append, he, hTe]
  have hqmem : q ∈ dictKeys c1.idling_qubits := hmem q (hreg q hq)
  by_cases hcnt : (ops.flatMap Op.targets).count q = 0
  · have hz1 : dictGet c1.idling_qubits q = 0 := by
      rw [hget q, if_pos hcnt, hget0]
    rw [hcnt, if_pos ⟨hqmem, hz1⟩]
  · have h1 : dictGet c1.idling_qubits q = 1 := by
      rw [hget q, if_neg hcnt]
    rw [if_neg (by
      rintro ⟨_, hzz⟩
      rw [h1] at hzz
      exact absurd hzz one_ne_zero)]
    omega

/-- Witness for idle_noise_invariant: two registered qubits, one measured, then
the step closes; the measured qubit got its flip event, the idle one idle
noise, each exactly once. -/
theorem idle_noise_invariant_witness :
    noiseEventsOn 0
        ((((Circuit.init (DepolarizingNoise.fields 0)).add_qubits
            [⟨0, 0⟩, ⟨1, 1⟩]).measure_qubits [0]).instrs.drop
          (((Circuit.init (DepolarizingNoise.fields 0)).add_qubits
            [⟨0, 0⟩, ⟨1, 1⟩]).instrs.length)) =
      ([Op.measure [0]].flatMap Op.targets).count 0 ∧
    noiseEventsOn 0
        (((((Circuit.init (DepolarizingNoise.fields 0)).add_qubits
            [⟨0, 0⟩, ⟨1, 1⟩]).measure_qubits [0]).time_step
              ("DEPOLARIZE1", 0)).instrs.drop
          (((Circuit.init (DepolarizingNoise.fields 0)).add_qubits
            [⟨0, 0⟩, ⟨1, 1⟩]).instrs.length)) = 1 :=
  idle_noise_invariant _ _ [Op.measure [0]] ("DEPOLARIZE1", 0) 0
    (by decide) (by decide) (by decide) rfl (by decide) (by decide)

/-- Counterexample to C3 as stated: a sequence applying H twice to the same
registered qubit inside one time step leaves that qubit with two noise events
after the step closes, not exactly one. -/
theorem idle_noise_counterexample :
    ((runOps ((Circuit.init (DepolarizingNoise.fields 0)).add_qubits [⟨0, 0⟩])
        [Op.hGate [0], Op.hGate [0]]).map
      (fun c1 => noiseEventsOn 0
        ((c1.time_step ("DEPOLARIZE1", 0)).instrs.drop
          (((Circuit.init (DepolarizingNoise.fields 0)).add_qubits
            [⟨0, 0⟩]).instrs.length)))) = Except.ok 2 ∧ (2 : ℕ) ≠ 1 := by
  constructor
  · rfl
  · decide

/-! ## Rotated planar code layout (machq/codes/rotated_planar_code.py) -/

/-- Python range(a, b, s) for a positive step s. -/
def pyRange (a b s : ℕ) : List ℕ := List.range' a ((b - a + s - 1) / s) s

theorem length_pyRange (a b s : ℕ) : (pyRange a b s).length = (b - a + s - 1) / s := by
  simp [pyRange]

theorem mem_pyRange {a b s x : ℕ} :
    x ∈ pyRange a b s ↔ ∃ i < (b - a + s - 1) / s, x = a + s * i :=
  List.mem_range'

theorem nodup_pyRange (a b s : ℕ) (hs : 0 < s) : (pyRange a b s).Nodup :=
  List.nodup_range' a _ s hs

namespace RotatedPlanarCode

/-- self.x_dim = 2 * z_distance + 1. -/
def x_dim (z_distance : ℕ) : ℕ := 2 * z_distance + 1

/-- self.y_dim = 2 * x_distance + 1. -/
def y_dim (x_distance : ℕ) : ℕ := 2 * x_distance + 1

/-- RotatedPlanarCode._define_data_: all odd-coordinate lattice points,
outer loop over y, inner loop over x. -/
def data_qubits (xd zd : ℕ) : List Qubit :=
  (pyRange 1 (y_dim xd) 2).flatMap fun _y : ℕ =>
    (pyRange 1 (x_dim zd) 2).map fun _x : ℕ => Qubit.mk _x _y

/-- RotatedPlanarCode._define_auxiliary_, X part: walk even columns
x = 2, 4, ..., x_dim - 2 (the enumeration index is the running offset), with a
y-stride of 4 starting at 2 * (offset % 2), up to y_dim + (1 - x_distance % 2). -/
def x_auxiliary_qubits (xd zd : ℕ) : List Qubit :=
  ((pyRange 2 (x_dim zd - 1) 2).enum).flatMap fun p =>
    (pyRange (2 * (p.1 % 2)) (y_dim xd + (1 - xd % 2)) 4).map fun y : ℕ =>
      Qubit.mk p.2 y

/-- RotatedPlanarCode._define_auxiliary_, Z part: walk even rows
y = 2, 4, ..., y_dim - 2 with the offset starting at 1, x-stride 4 from
2 * (offset % 2) up to x_dim. -/
def z_auxiliary_qubits (xd zd : ℕ) : List Qubit :=
  ((pyRange 2 (y_dim xd - 1) 2).enum).flatMap fun p =>
    (pyRange (2 * ((p.1 + 1) % 2)) (x_dim zd) 4).map fun x : ℕ =>
      Qubit.mk x p.2

/-- self.auxiliary_qubits = X-type entries followed by Z-type entries. -/
def auxiliary_qubits (xd zd : ℕ) : List Qubit :=
  x_auxiliary_qubits xd zd ++ z_auxiliary_qubits xd zd

/-- The sort key used by self.qubit_coords: ascending (y, x) lexicographically. -/
def sortKeyLe (q r : Qubit) : Bool :=
  decide (q.y < r.y ∨ (q.y = r.y ∧ q.x ≤ r.x))

/-- self.qubit_coords: all qubits sorted by (y, x); mergeSort is a stable sort
and so computes the same list as Python sorted with key (y, x). -/
def qubit_coords (xd zd : ℕ) : List Qubit :=
  (data_qubits xd zd ++ auxiliary_qubits xd zd).mergeSort sortKeyLe

/-- self.qubit_map as a function: the dense index of a qubit coordinate in the
canonical ordering. -/
def qubit_map (xd zd : ℕ) (q : Qubit) : ℕ := (qubit_coords xd zd).indexOf q

theorem mem_qubit_coords_iff (xd zd : ℕ) (q : Qubit) :
    q ∈ qubit_coords xd zd ↔ q ∈ data_qubits xd zd ++ auxiliary_qubits xd zd :=
  (List.mergeSort_perm _ _).mem_iff

theorem length_qubit_coords (xd zd : ℕ) :
    (qubit_coords xd zd).length =
      (data_qubits xd zd).length + (auxiliary_qubits xd zd).length := by
  unfold qubit_coords
  rw [(List.mergeSort_perm _ _).length_eq, List.length_append]

theorem length_data_qubits (xd zd : ℕ) : (data_qubits xd zd).length = xd * zd := by
  unfold data_qubits
  rw [List.length_flatMap]
  rw [List.map_congr_left (g := fun _ => zd) (by
    intro y _
    simp only [Function.comp, List.length_map, length_pyRange, x_dim]
    omega)]
  simp only [List.map_const', List.sum_replicate, smul_eq_mul, length_pyRange, y_dim]
  have : (2 * xd + 1 - 1 + 2 - 1) / 2 = xd := by omega
  rw [this]

theorem length_x_auxiliary_qubits (m zd : ℕ) :
    (x_auxiliary_qubits (2 * m + 1) zd).length = (zd - 1) * (m + 1) := by
  unfold x_auxiliary_qubits
  rw [List.length_flatMap]
  rw [List.map_congr_left (g := fun _ => m + 1) (by
    intro p _
    simp only [Function.comp, List.length_map, length_pyRange, y_dim]
    rcases Nat.mod_two_eq_zero_or_one p.1 with h | h <;> rw [h] <;> omega)]
  simp only [List.map_const', List.sum_replicate, smul_eq_mul, List.enum_length,
    length_pyRange, x_dim]
  have : (2 * zd + 1 - 1 - 2 + 2 - 1) / 2 = zd - 1 := by omega
  rw [this]

theorem length_z_auxiliary_qubits (xd n : ℕ) :
    (z_auxiliary_qubits xd (2 * n + 1)).length = (xd - 1) * (n + 1) := by
  unfold z_auxiliary_qubits
  rw [List.length_flatMap]
  rw [List.map_congr_left (g := fun _ => n + 1) (by
    intro p _
    simp only [Function.comp, List.length_map, length_pyRange, x_dim]
    rcases Nat.mod_two_eq_zero_or_one (p.1 + 1) with h | h <;> rw [h] <;> omega)]
  simp only [List.map_const', List.sum_replicate, smul_eq_mul, List.enum_length,
    length_pyRange, y_dim]
  have : (2 * xd + 1 - 1 - 2 + 2 - 1) / 2 = xd - 1 := by omega
  rw [this]

end RotatedPlanarCode

theorem mem_enum_pyRange {a b s : ℕ} {p : ℕ × ℕ} (hp : p ∈ (pyRange a b s).enum) :
    p.1 < (b - a + s - 1) / s ∧ p.2 = a + s * p.1 := by
  rw [List.mem_enum_iff_getElem?] at hp
  have hlt : p.1 < (pyRange a b s).length := by
    by_contra hge
    rw [List.getElem?_eq_none (by omega)] at hp
    exact absurd hp (by simp)
  rw [length_pyRange] at hlt
  refine ⟨hlt, ?_⟩
  unfold pyRange at hp
  rw [List.getElem?_range' _ _ hlt] at hp
  simp only [Option.some.injEq] at hp
  exact hp.symm

/-- Extract natural-number coordinates from an equality of cast qubits. -/
theorem qubit_mk_nat_inj {a b a' b' : ℕ}
    (h : Qubit.mk (a : ℚ) (b : ℚ) = Qubit.mk (a' : ℚ) (b' : ℚ)) : a = a' ∧ b = b' := by
  have hx := congrArg Qubit.x h
  have hy := congrArg Qubit.y h
  simp only [Nat.cast_inj] at hx hy
  exact ⟨hx, hy⟩

namespace RotatedPlanarCode

theorem data_mem_spec (xd zd : ℕ) (q : Qubit) (hq : q ∈ data_qubits xd zd) :
    ∃ a b : ℕ, q = Qubit.mk a b ∧ a % 2 = 1 ∧ b % 2 = 1 := by
  unfold data_qubits at hq
  rw [List.mem_flatMap] at hq
  obtain ⟨y, hy, hq⟩ := hq
  rw [List.mem_map] at hq
  obtain ⟨x, hx, rfl⟩ := hq
  rw [mem_pyRange] at hx hy
  obtain ⟨i, _, rfl⟩ := hx
  obtain ⟨j, _, rfl⟩ := hy
  exact ⟨1 + 2 * i, 1 + 2 * j, rfl, by omega, by omega⟩

theorem x_aux_mem_spec (xd zd : ℕ) (q : Qubit) (hq : q ∈ x_auxiliary_qubits xd zd) :
    ∃ a b : ℕ, q = Qubit.mk a b ∧ a % 2 = 0 ∧ b % 2 = 0 ∧ (a + b) % 4 = 2 := by
  unfold x_auxiliary_qubits at hq
  rw [List.mem_flatMap] at hq
  obtain ⟨p, hp, hq⟩ := hq
  rw [List.mem_map] at hq
  obtain ⟨y, hy, rfl⟩ := hq
  obtain ⟨-, hp2⟩ := mem_enum_pyRange hp
  rw [mem_pyRange] at hy
  obtain ⟨j, -, rfl⟩ := hy
  exact ⟨p.2, 2 * (p.1 % 2) + 4 * j, rfl, by omega, by omega, by omega⟩

theorem z_aux_mem_spec (xd zd : ℕ) (q : Qubit) (hq : q ∈ z_auxiliary_qubits xd zd) :
    ∃ a b : ℕ, q = Qubit.mk a b ∧ a % 2 = 0 ∧ b % 2 = 0 ∧ (a + b) % 4 = 0 := by
  unfold z_auxiliary_qubits at hq
  rw [List.mem_flatMap] at hq
  obtain ⟨p, hp, hq⟩ := hq
  rw [List.mem_map] at hq
  obtain ⟨x, hx, rfl⟩ := hq
  obtain ⟨-, hp2⟩ := mem_enum_pyRange hp
  rw [mem_pyRange] at hx
  obtain ⟨j, -, rfl⟩ := hx
  exact ⟨2 * ((p.1 + 1) % 2) + 4 * j, p.2, rfl, by omega, by omega, by omega⟩

theorem nodup_data_qubits (xd zd : ℕ) : (data_qubits xd zd).Nodup := by
  unfold data_qubits
  rw [List.nodup_flatMap]
  constructor
  · intro y _
    refine List.Nodup.map ?_ (nodup_pyRange _ _ _ (by omega))
    intro a b hab
    exact (qubit_mk_nat_inj hab).1
  · refine List.Pairwise.imp ?_ (nodup_pyRange 1 (y_dim xd) 2 (by omega))
    intro y y' hne q hq hq'
    rw [List.mem_map] at hq hq'
    obtain ⟨x, -, rfl⟩ := hq
    obtain ⟨x', -, heq⟩ := hq'
    exact hne (qubit_mk_nat_inj heq.symm).2

theorem nodup_x_auxiliary_qubits (xd zd : ℕ) : (x_auxiliary_qubits xd zd).Nodup := by
  unfold x_auxiliary_qubits
  rw [List.nodup_flatMap]
  constructor
  · intro p _
    refine List.Nodup.map ?_ (nodup_pyRange _ _ _ (by omega))
    intro a b hab
    exact (qubit_mk_nat_inj hab).2
  · have houter : List.Pairwise (fun p p' : ℕ × ℕ => p.2 ≠ p'.2)
        ((pyRange 2 (x_dim zd - 1) 2).enum) := by
      have h := nodup_pyRange 2 (x_dim zd - 1) 2 (by omega)
      rw [← List.enum_map_snd (pyRange 2 (x_dim zd - 1) 2)] at h
      exact List.pairwise_map.1 h
    refine List.Pairwise.imp ?_ houter
    intro p p' hne q hq hq'
    rw [List.mem_map] at hq hq'
    obtain ⟨y, -, rfl⟩ := hq
    obtain ⟨y', -, heq⟩ := hq'
    exact hne (qubit_mk_nat_inj heq.symm).1

theorem nodup_z_auxiliary_qubits (xd zd : ℕ) : (z_auxiliary_qubits xd zd).Nodup := by
  unfold z_auxiliary_qubits
  rw [List.nodup_flatMap]
  constructor
  · intro p _
    refine List.Nodup.map ?_ (nodup_pyRange _ _ _ (by omega))
    intro a b hab
    exact (qubit_mk_nat_inj hab).1
  · have houter : List.Pairwise (fun p p' : ℕ × ℕ => p.2 ≠ p'.2)
        ((pyRange 2 (y_dim xd - 1) 2).enum) := by
      have h := nodup_pyRange 2 (y_dim xd - 1) 2 (by omega)
      rw [← List.enum_map_snd (pyRange 2 (y_dim xd - 1) 2)] at h
      exact List.pairwise_map.1 h
    refine List.Pairwise.imp ?_ houter
    intro p p' hne q hq hq'
    rw [List.mem_map] at hq hq'
    obtain ⟨x, -, rfl⟩ := hq
    obtain ⟨x', -, heq⟩ := hq'
    exact hne (qubit_mk_nat_inj heq.symm).2

theorem nodup_qubit_coords (xd zd : ℕ) : (qubit_coords xd zd).Nodup := by
  unfold qubit_coords
  rw [(List.mergeSort_perm _ _).nodup_iff]
  rw [List.nodup_append]
  refine ⟨nodup_data_qubits xd zd, ?_, ?_⟩
  · unfold auxiliary_qubits
    rw [List.nodup_append]
    refine ⟨nodup_x_auxiliary_qubits xd zd, nodup_z_auxiliary_qubits xd zd, ?_⟩
    intro q hqx hqz
    obtain ⟨a, b, rfl, -, -, h2⟩ := x_aux_mem_spec xd zd q hqx
    obtain ⟨a', b', heq, -, -, h0⟩ := z_aux_mem_spec xd zd _ hqz
    obtain ⟨rfl, rfl⟩ := qubit_mk_nat_inj heq
    omega
  · intro q hqd hqa
    obtain ⟨a, b, rfl, hodd, -⟩ := data_mem_spec xd zd q hqd
    unfold auxiliary_qubits at hqa
    rw [List.mem_append] at hqa
    rcases hqa with hqa | hqa
    · obtain ⟨a', b', heq, heven, -, -⟩ := x_aux_mem_spec xd zd _ hqa
      obtain ⟨rfl, rfl⟩ := qubit_mk_nat_inj heq
      omega
    · obtain ⟨a', b', heq, heven, -, -⟩ := z_aux_mem_spec xd zd _ hqa
      obtain ⟨rfl, rfl⟩ := qubit_mk_nat_inj heq
      omega

end RotatedPlanarCode

/-- C6: for every odd distance d at least 3 with x_distance = z_distance = d,
the rotated planar code has exactly d*d data qubits, 2*d*d - 1 qubits in total
(data plus X- and Z-type auxiliaries), and the coordinates in qubit_coords are
pairwise distinct. -/
theorem rotated_planar_qubit_counts (d : ℕ) (hodd : Odd d) (hge : 3 ≤ d) :
    (RotatedPlanarCode.data_qubits d d).length = d * d ∧
    (RotatedPlanarCode.qubit_coords d d).length = 2 * (d * d) - 1 ∧
    (RotatedPlanarCode.qubit_coords d d).Nodup := by
  obtain ⟨m, hm⟩ := hodd
  have hd : d = 2 * m + 1 := by omega
  subst hd
  refine ⟨RotatedPlanarCode.length_data_qubits _ _, ?_,
    RotatedPlanarCode.nodup_qubit_coords _ _⟩
  rw [RotatedPlanarCode.length_qubit_coords, RotatedPlanarCode.length_data_qubits,
    RotatedPlanarCode.auxiliary_qubits, List.length_append,
    RotatedPlanarCode.length_x_auxiliary_qubits,
    RotatedPlanarCode.length_z_auxiliary_qubits]
  have hsub : 2 * m + 1 - 1 = 2 * m := by omega
  rw [hsub]
  have hX : (2 * m + 1) * (2 * m + 1) = 4 * (m * m) + 4 * m + 1 := by ring
  have hY : 2 * m * (m + 1) = 2 * (m * m) + 2 * m := by ring
  rw [hX, hY]
  omega

/-- Witness for rotated_planar_qubit_counts at distance 3. -/
theorem rotated_planar_qubit_counts_witness :
    (RotatedPlanarCode.data_qubits 3 3).length = 3 * 3 ∧
    (RotatedPlanarCode.qubit_coords 3 3).length = 2 * (3 * 3) - 1 ∧
    (RotatedPlanarCode.qubit_coords 3 3).Nodup :=
  rotated_planar_qubit_counts 3 (by decide) (by decide)

/-! ## Syndrome extraction scheduling (RotatedPlanarCode._measure_syndromes_) -/

/-- Is this instruction a CX gate? -/
def Instr.isCX : Instr → Bool
  | Instr.cx _ => true
  | _ => false

/-- Is this instruction a measurement? -/
def Instr.isMeasure : Instr → Bool
  | Instr.measure _ _ => true
  | _ => false

/-- Is this instruction a reset? -/
def Instr.isReset : Instr → Bool
  | Instr.reset _ => true
  | _ => false

/-- Is this instruction a measurement or a reset? -/
def Instr.isMR (i : Instr) : Bool := i.isMeasure || i.isReset

theorem check_qubits_exist_ok (c : Circuit) (qs : List ℕ)
    (h : ∀ i ∈ qs, i < c.valid_qubits) :
    c.check_qubits_exist qs = Except.ok () := by
  unfold Circuit.check_qubits_exist
  rw [if_pos]
  rw [List.all_eq_true]
  intro x hx
  simpa using h x hx

theorem CX_ok_of_even_mem (c : Circuit) (qs : List ℕ) (heven : qs.length % 2 = 0)
    (hmem : ∀ i ∈ qs, i < c.valid_qubits) :
    c.CX qs = Except.ok { c with
      instrs := c.instrs ++
        [Instr.cx qs, Instr.noise c.noise_profile.two_qubit_gate_noise.1 qs
          c.noise_profile.two_qubit_gate_noise.2]
      idling_qubits := qs.foldl (fun d q => dictSet d q 1) c.idling_qubits } := by
  unfold Circuit.CX
  rw [if_neg (by omega), check_qubits_exist_ok c qs hmem]

theorem H_ok_of_mem (c : Circuit) (qs : List ℕ)
    (hmem : ∀ i ∈ qs, i < c.valid_qubits) :
    c.H qs = Except.ok { c with
      instrs := c.instrs ++
        [Instr.hGate qs, Instr.noise c.noise_profile.single_qubit_gate_noise.1 qs
          c.noise_profile.single_qubit_gate_noise.2]
      idling_qubits := qs.foldl (fun d q => dictSet d q 1) c.idling_qubits } := by
  unfold Circuit.H
  rw [check_qubits_exist_ok c qs hmem]

theorem time_step_instrs (c : Circuit) (idle : String × ℚ) :
    ∃ T, (c.time_step idle).instrs = c.instrs ++ T ∧
      T.countP (fun i => i.isCX) = 0 ∧ T.filter (fun i => i.isMR) = [] ∧
      (c.time_step idle).valid_qubits = c.valid_qubits ∧
      (c.time_step idle).noise_profile = c.noise_profile := by
  refine ⟨(if ((c.idling_qubits.filter (fun p => p.2 == 0)).map Prod.fst).isEmpty then []
      else [Instr.noise idle.1 ((c.idling_qubits.filter (fun p => p.2 == 0)).map Prod.fst)
        idle.2]) ++ [Instr.tick], ?_, ?_, ?_, rfl, rfl⟩
  · rw [Circuit.time_step]
    simp [List.append_assoc]
  · by_cases hemp : ((c.idling_qubits.filter (fun p => p.2 == 0)).map Prod.fst).isEmpty
    · rw [if_pos hemp]
      simp [Instr.isCX]
    · rw [if_neg hemp]
      simp [Instr.isCX]
  · by_cases hemp : ((c.idling_qubits.filter (fun p => p.2 == 0)).map Prod.fst).isEmpty
    · rw [if_pos hemp]
      simp [Instr.isMR, Instr.isMeasure, Instr.isReset]
    · rw [if_neg hemp]
      simp [Instr.isMR, Instr.isMeasure, Instr.isReset]

namespace RotatedPlanarCode

/-- The default X-stabiliser schedule of _measure_syndromes_, as coordinate
deltas. -/
def x_schedule_default : List Qubit := [⟨-1, 1⟩, ⟨1, 1⟩, ⟨-1, -1⟩, ⟨1, -1⟩]

/-- The default Z-stabiliser schedule of _measure_syndromes_. -/
def z_schedule_default : List Qubit := [⟨-1, 1⟩, ⟨-1, -1⟩, ⟨1, 1⟩, ⟨1, -1⟩]

/-- The CNOT qubit list assembled for one schedule slot: for every auxiliary in
order, the X-auxiliary contribution (control then data neighbour) followed by
the Z-auxiliary contribution (data neighbour then target), each guarded on the
shifted neighbour being a data qubit. -/
def cnot_qubits_for_slot (xd zd : ℕ) (x_delta z_delta : Qubit) : List Qubit :=
  (auxiliary_qubits xd zd).flatMap fun qubit =>
    (if qubit ∈ x_auxiliary_qubits xd zd ∧ qubit.add x_delta ∈ data_qubits xd zd
      then [qubit, qubit.add x_delta] else []) ++
    (if qubit ∈ z_auxiliary_qubits xd zd ∧ qubit.add z_delta ∈ data_qubits xd zd
      then [qubit.add z_delta, qubit] else [])

/-- The per-slot loop of _measure_syndromes_: emit the slot's CX gates, close
the time step, continue with the remaining slots. -/
def scheduleLoop (xd zd : ℕ) : List (Qubit × Qubit) → Circuit → Except String Circuit
  | [], c => Except.ok c
  | s :: rest, c =>
    match c.CX ((cnot_qubits_for_slot xd zd s.1 s.2).map (qubit_map xd zd)) with
    | Except.error e => Except.error e
    | Except.ok c2 => scheduleLoop xd zd rest (c2.time_step c2.noise_profile.idle_noise)

/-- RotatedPlanarCode._measure_syndromes_: Hadamard the X-auxiliaries, step,
run the four schedule slots (CX layer + step each), Hadamard again, step,
measure all auxiliaries, step, reset all auxiliaries. -/
def measure_syndromes (xd zd : ℕ) (x_schedule z_schedule : List Qubit)
    (c : Circuit) : Except String Circuit :=
  match c.H ((x_auxiliary_qubits xd zd).map (qubit_map xd zd)) with
  | Except.error e => Except.error e
  | Except.ok c1 =>
    match scheduleLoop xd zd (x_schedule.zip z_schedule)
        (c1.time_step c1.noise_profile.idle_noise) with
    | Except.error e => Except.error e
    | Except.ok c2 =>
      match c2.H ((x_auxiliary_qubits xd zd).map (qubit_map xd zd)) with
      | Except.error e => Except.error e
      | Except.ok c3 =>
        let c4 := (c3.time_step c3.noise_profile.idle_noise).measure_qubits
          ((auxiliary_qubits xd zd).map (qubit_map xd zd))
        Except.ok ((c4.time_step c4.noise_profile.idle_noise).reset_qubits
          (some ((auxiliary_qubits xd zd).map (qubit_map xd zd))))

/-- The circuit state RotatedPlanarCode.__init__ hands to the scheduler:
a fresh builder with the canonical qubit coordinates registered. -/
def initCircuit (xd zd : ℕ) (np : NoiseProfile) : Circuit :=
  (Circuit.init np).add_qubits (qubit_coords xd zd)

theorem qubit_map_lt (xd zd : ℕ) (q : Qubit) (h : q ∈ qubit_coords xd zd) :
    qubit_map xd zd q < (qubit_coords xd zd).length :=
  List.indexOf_lt_length.2 h

theorem length_flatMap_even {α β : Type} (l : List α) (f : α → List β)
    (h : ∀ x ∈ l, (f x).length % 2 = 0) : (l.flatMap f).length % 2 = 0 := by
  induction l with
  | nil => simp
  | cons x rest ih =>
    rw [List.flatMap_cons, List.length_append]
    have h1 := h x (List.mem_cons_self _ _)
    have h2 := ih (fun y hy => h y (List.mem_cons_of_mem _ hy))
    omega

theorem cnot_qubits_length_even (xd zd : ℕ) (dx dz : Qubit) :
    ((cnot_qubits_for_slot xd zd dx dz).length) % 2 = 0 := by
  unfold cnot_qubits_for_slot
  apply length_flatMap_even
  intro q _
  rw [List.length_append]
  split_ifs <;> simp

theorem cnot_qubits_mem (xd zd : ℕ) (dx dz : Qubit) (q : Qubit)
    (h : q ∈ cnot_qubits_for_slot xd zd dx dz) : q ∈ qubit_coords xd zd := by
  rw [mem_qubit_coords_iff, List.mem_append]
  unfold cnot_qubits_for_slot at h
  rw [List.mem_flatMap] at h
  obtain ⟨aux, haux, hq⟩ := h
  rw [List.mem_append] at hq
  rcases hq with hq | hq
  · by_cases h1 : aux ∈ x_auxiliary_qubits xd zd ∧ aux.add dx ∈ data_qubits xd zd
    · rw [if_pos h1] at hq
      rcases List.mem_cons.1 hq with rfl | hq
      · exact Or.inr haux
      · rcases List.mem_cons.1 hq with rfl | hq
        · exact Or.inl h1.2
        · exact absurd hq (List.not_mem_nil _)
    · rw [if_neg h1] at hq
      exact absurd hq (List.not_mem_nil _)
  · by_cases h2 : aux ∈ z_auxiliary_qubits xd zd ∧ aux.add dz ∈ data_qubits xd zd
    · rw [if_pos h2] at hq
      rcases List.mem_cons.1 hq with rfl | hq
      · exact Or.inl h2.2
      · rcases List.mem_cons.1 hq with rfl | hq
        · exact Or.inr haux
        · exact absurd hq (List.not_mem_nil _)
    · rw [if_neg h2] at hq
      exact absurd hq (List.not_mem_nil _)

theorem mapped_indices_lt (xd zd : ℕ) (c : Circuit)
    (hv : c.valid_qubits = (qubit_coords xd zd).length)
    (qs : List Qubit) (hqs : ∀ q ∈ qs, q ∈ qubit_coords xd zd) :
    ∀ i ∈ qs.map (qubit_map xd zd), i < c.valid_qubits := by
  intro i hi
  rw [List.mem_map] at hi
  obtain ⟨q, hq, rfl⟩ := hi
  rw [hv]
  exact qubit_map_lt xd zd q (hqs q hq)

theorem scheduleLoop_spec (xd zd : ℕ) :
    ∀ (sched : List (Qubit × Qubit)) (c : Circuit),
      c.valid_qubits = (qubit_coords xd zd).length →
      ∃ c2, scheduleLoop xd zd sched c = Except.ok c2 ∧
        c2.valid_qubits = c.valid_qubits ∧ c2.noise_profile = c.noise_profile ∧
        ∃ L, c2.instrs = c.instrs ++ L ∧
          L.countP (fun i => i.isCX) = sched.length ∧
          L.filter (fun i => i.isMR) = []
  | [], c, hv => ⟨c, rfl, rfl, rfl, [], by simp, by simp, by simp⟩
  | s :: rest, c, hv => by
    have hcx := CX_ok_of_even_mem c
      ((cnot_qubits_for_slot xd zd s.1 s.2).map (qubit_map xd zd))
      (by rw [List.length_map]; exact cnot_qubits_length_even xd zd s.1 s.2)
      (mapped_indices_lt xd zd c hv _ (fun q hq => cnot_qubits_mem xd zd s.1 s.2 q hq))
    obtain ⟨T, hT, hTcx, hTmr, hTv, hTn⟩ := time_step_instrs
      { c with
        instrs := c.instrs ++
          [Instr.cx ((cnot_qubits_for_slot xd zd s.1 s.2).map (qubit_map xd zd)),
           Instr.noise c.noise_profile.two_qubit_gate_noise.1
             ((cnot_qubits_for_slot xd zd s.1 s.2).map (qubit_map xd zd))
             c.noise_profile.two_qubit_gate_noise.2]
        idling_qubits := ((cnot_qubits_for_slot xd zd s.1 s.2).map
          (qubit_map xd zd)).foldl (fun d q => dictSet d q 1) c.idling_qubits }
      c.noise_profile.idle_noise
    obtain ⟨c2, hc2, hv2, hn2, L2, hi2, hcx2, hmr2⟩ :=
      scheduleLoop_spec xd zd rest
        (Circuit.time_step
          { c with
            instrs := c.instrs ++
              [Instr.cx ((cnot_qubits_for_slot xd zd s.1 s.2).map (qubit_map xd zd)),
               Instr.noise c.noise_profile.two_qubit_gate_noise.1
                 ((cnot_qubits_for_slot xd zd s.1 s.2).map (qubit_map xd zd))
                 c.noise_profile.two_qubit_gate_noise.2]
            idling_qubits := ((cnot_qubits_for_slot xd zd s.1 s.2).map
              (qubit_map xd zd)).foldl (fun d q => dictSet d q 1) c.idling_qubits }
          c.noise_profile.idle_noise)
        (by rw [hTv]; exact hv)
    refine ⟨c2, ?_, ?_, ?_,
      [Instr.cx ((cnot_qubits_for_slot xd zd s.1 s.2).map (qubit_map xd zd)),
       Instr.noise c.noise_profile.two_qubit_gate_noise.1
         ((cnot_qubits_for_slot xd zd s.1 s.2).map (qubit_map xd zd))
         c.noise_profile.two_qubit_gate_noise.2] ++ T ++ L2, ?_, ?_, ?_⟩
    · rw [scheduleLoop, hcx]
      exact hc2
    · rw [hv2, hTv]
    · rw [hn2, hTn]
    · rw [hi2, hT]
      simp [List.append_assoc]
    · simp only [List.countP_append, hcx2, hTcx, List.length_cons]
      simp [Instr.isCX]
      omega
    · simp only [List.filter_append, hmr2, hTmr, List.append_nil]
      simp [Instr.isMR, Instr.isMeasure, Instr.isReset]

end RotatedPlanarCode

theorem H_ok_shape (c : Circuit) (qs : List ℕ) (h : ∀ i ∈ qs, i < c.valid_qubits) :
    ∃ c2, c.H qs = Except.ok c2 ∧ c2.valid_qubits = c.valid_qubits ∧
      c2.noise_profile = c.noise_profile ∧
      ∃ L, c2.instrs = c.instrs ++ L ∧ L.countP (fun i => i.isCX) = 0 ∧
        L.filter (fun i => i.isMR) = [] := by
  refine ⟨_, H_ok_of_mem c qs h, rfl, rfl,
    [Instr.hGate qs, Instr.noise c.noise_profile.single_qubit_gate_noise.1 qs
      c.noise_profile.single_qubit_gate_noise.2], rfl, ?_, ?_⟩
  · simp [Instr.isCX]
  · simp [Instr.isMR, Instr.isMeasure, Instr.isReset]

theorem Circuit.measure_qubits_instrs (c : Circuit) (qs : List ℕ) :
    (c.measure_qubits qs).instrs =
      c.instrs ++ [Instr.measure qs c.noise_profile.measurement_flip_prob] := rfl

theorem Circuit.measure_qubits_valid (c : Circuit) (qs : List ℕ) :
    (c.measure_qubits qs).valid_qubits = c.valid_qubits := rfl

theorem Circuit.measure_qubits_np (c : Circuit) (qs : List ℕ) :
    (c.measure_qubits qs).noise_profile = c.noise_profile := rfl

theorem Circuit.reset_qubits_some_instrs (c : Circuit) (qs : List ℕ) :
    (c.reset_qubits (some qs)).instrs =
      c.instrs ++ [Instr.reset qs,
        Instr.noise "X_ERROR" qs c.noise_profile.reset_noise] := rfl

theorem Circuit.reset_qubits_valid (c : Circuit) (qs : Option (List ℕ)) :
    (c.reset_qubits qs).valid_qubits = c.valid_qubits := rfl

namespace RotatedPlanarCode

theorem aux_mem_qc (xd zd : ℕ) (q : Qubit) (h : q ∈ auxiliary_qubits xd zd) :
    q ∈ qubit_coords xd zd := by
  rw [mem_qubit_coords_iff, List.mem_append]
  exact Or.inr h

theorem xaux_mem_qc (xd zd : ℕ) (q : Qubit) (h : q ∈ x_auxiliary_qubits xd zd) :
    q ∈ qubit_coords xd zd := by
  apply aux_mem_qc
  rw [auxiliary_qubits, List.mem_append]
  exact Or.inl h

theorem measure_syndromes_spec (xd zd : ℕ) (xs zs : List Qubit) (c : Circuit)
    (hv : c.valid_qubits = (qubit_coords xd zd).length) :
    ∃ c', measure_syndromes xd zd xs zs c = Except.ok c' ∧
      c'.valid_qubits = c.valid_qubits ∧
      ∃ L, c'.instrs = c.instrs ++ L ∧
        L.countP (fun i => i.isCX) = (xs.zip zs).length ∧
        L.filter (fun i => i.isMR) =
          [Instr.measure ((auxiliary_qubits xd zd).map (qubit_map xd zd))
             c.noise_profile.measurement_flip_prob,
           Instr.reset ((auxiliary_qubits xd zd).map (qubit_map xd zd))] := by
  obtain ⟨c1, hH1, hv1, hn1, L1, hi1, hcx1, hmr1⟩ :=
    H_ok_shape c ((x_auxiliary_qubits xd zd).map (qubit_map xd zd))
      (mapped_indices_lt xd zd c hv _ (fun q hq => xaux_mem_qc xd zd q hq))
  obtain ⟨T1, hT1, hTcx1, hTmr1, hTv1, hTn1⟩ :=
    time_step_instrs c1 c1.noise_profile.idle_noise
  obtain ⟨c2, hloop, hv2, hn2, L2, hi2, hcx2, hmr2⟩ :=
    scheduleLoop_spec xd zd (xs.zip zs) (c1.time_step c1.noise_profile.idle_noise)
      (by rw [hTv1, hv1, hv])
  obtain ⟨c3, hH2, hv3, hn3, L3, hi3, hcx3, hmr3⟩ :=
    H_ok_shape c2 ((x_auxiliary_qubits xd zd).map (qubit_map xd zd))
      (mapped_indices_lt xd zd c2
        (by rw [hv2, hTv1, hv1, hv]) _ (fun q hq => xaux_mem_qc xd zd q hq))
  obtain ⟨T2, hT2, hTcx2, hTmr2, hTv2, hTn2⟩ :=
    time_step_instrs c3 c3.noise_profile.idle_noise
  obtain ⟨T3, hT3, hTcx3, hTmr3, hTv3, hTn3⟩ :=
    time_step_instrs
      ((c3.time_step c3.noise_profile.idle_noise).measure_qubits
        ((auxiliary_qubits xd zd).map (qubit_map xd zd)))
      ((c3.time_step c3.noise_profile.idle_noise).measure_qubits
        ((auxiliary_qubits xd zd).map (qubit_map xd zd))).noise_profile.idle_noise
  have hnp3 : c3.noise_profile = c.noise_profile := by
    rw [hn3, hn2, hTn1, hn1]
  have hAnp : (c3.time_step c3.noise_profile.idle_noise).noise_profile =
      c.noise_profile := hTn2.trans hnp3
  refine ⟨(((c3.time_step c3.noise_profile.idle_noise).measure_qubits
      ((auxiliary_qubits xd zd).map (qubit_map xd zd))).time_step
        ((c3.time_step c3.noise_profile.idle_noise).measure_qubits
          ((auxiliary_qubits xd zd).map (qubit_map xd zd))).noise_profile.idle_noise).reset_qubits
      (some ((auxiliary_qubits xd zd).map (qubit_map xd zd))), ?_, ?_, ?_⟩
  · simp only [measure_syndromes, hH1, hloop, hH2]
  · rw [Circuit.reset_qubits_valid, hTv3, Circuit.measure_qubits_valid, hTv2, hv3,
      hv2, hTv1, hv1]
  · refine ⟨L1 ++ T1 ++ L2 ++ L3 ++ T2 ++
      [Instr.measure ((auxiliary_qubits xd zd).map (qubit_map xd zd))
        c.noise_profile.measurement_flip_prob] ++ T3 ++
      [Instr.reset ((auxiliary_qubits xd zd).map (qubit_map xd zd)),
       Instr.noise "X_ERROR" ((auxiliary_qubits xd zd).map (qubit_map xd zd))
        c.noise_profile.reset_noise], ?_, ?_, ?_⟩
    · rw [Circuit.reset_qubits_some_instrs, hT3, Circuit.measure_qubits_instrs,
        hTn3, Circuit.measure_qubits_np, hAnp, hT2, hi3, hi2, hT1, hi1]
      simp [List.append_assoc]
    · simp only [List.countP_append, hcx1, hTcx1, hcx2, hcx3, hTcx2, hTcx3]
      simp [Instr.isCX]
    · simp only [List.filter_append, hmr1, hTmr1, hmr2, hmr3, hTmr2, hTmr3]
      simp [Instr.isMR, Instr.isMeasure, Instr.isReset]

end RotatedPlanarCode

theorem countP_isMeasure_eq_filter_MR (L : List Instr) :
    L.countP (fun i => i.isMeasure) =
      (L.filter (fun i => i.isMR)).countP (fun i => i.isMeasure) := by
  induction L with
  | nil => rfl
  | cons i rest ih =>
    cases i <;> simp_all [List.countP_cons, List.filter_cons, Instr.isMR,
      Instr.isMeasure, Instr.isReset]

theorem countP_isReset_eq_filter_MR (L : List Instr) :
    L.countP (fun i => i.isReset) =
      (L.filter (fun i => i.isMR)).countP (fun i => i.isReset) := by
  induction L with
  | nil => rfl
  | cons i rest ih =>
    cases i <;> simp_all [List.countP_cons, List.filter_cons, Instr.isMR,
      Instr.isMeasure, Instr.isReset]

theorem no_reset_before_measure (L : List Instr) (ts ts' : List ℕ) (p : ℚ)
    (h : L.filter (fun i => i.isMR) = [Instr.measure ts p, Instr.reset ts']) :
    (L.takeWhile (fun i => !(i.isMeasure))).any (fun i => i.isReset) = false := by
  induction L with
  | nil => rfl
  | cons i rest ih =>
    cases i <;> simp_all [List.filter_cons, List.takeWhile_cons, Instr.isMR,
      Instr.isMeasure, Instr.isReset]

/-- C4 (amended): one syndrome-extraction round of the core variant with the
default schedules, starting from any builder state with the canonical qubit
set registered, succeeds and appends exactly 4 two-qubit-gate (CX)
instructions and exactly one measurement instruction; the appended log
contains exactly one reset instruction on the auxiliary qubits, and that reset
FOLLOWS the measurement (measure, then reset): restricted to measurements and
resets, the appended instructions are exactly [measure auxiliaries,
reset auxiliaries] in that order. -/
theorem measure_syndromes_round_shape (xd zd : ℕ) (c : Circuit)
    (hv : c.valid_qubits = (RotatedPlanarCode.qubit_coords xd zd).length) :
    ∃ c' L, RotatedPlanarCode.measure_syndromes xd zd
        RotatedPlanarCode.x_schedule_default RotatedPlanarCode.z_schedule_default c =
          Except.ok c' ∧
      c'.instrs = c.instrs ++ L ∧
      L.countP (fun i => i.isCX) = 4 ∧
      L.countP (fun i => i.isMeasure) = 1 ∧
      L.countP (fun i => i.isReset) = 1 ∧
      L.filter (fun i => i.isMR) =
        [Instr.measure ((RotatedPlanarCode.auxiliary_qubits xd zd).map
            (RotatedPlanarCode.qubit_map xd zd)) c.noise_profile.measurement_flip_prob,
         Instr.reset ((RotatedPlanarCode.auxiliary_qubits xd zd).map
            (RotatedPlanarCode.qubit_map xd zd))] := by
  obtain ⟨c', hok, hvp, L, hins, hcx, hmr⟩ :=
    RotatedPlanarCode.measure_syndromes_spec xd zd
      RotatedPlanarCode.x_schedule_default RotatedPlanarCode.z_schedule_default c hv
  refine ⟨c', L, hok, hins, by rw [hcx]; rfl, ?_, ?_, hmr⟩
  · rw [countP_isMeasure_eq_filter_MR, hmr]
    simp [List.countP_cons, Instr.isMeasure]
  · rw [countP_isReset_eq_filter_MR, hmr]
    simp [List.countP_cons, Instr.isReset]

/-- Witness for measure_syndromes_round_shape: the distance-3 code circuit as
initialized by the constructor. -/
theorem measure_syndromes_round_shape_witness :
    ∃ c' L, RotatedPlanarCode.measure_syndromes 3 3
        RotatedPlanarCode.x_schedule_default RotatedPlanarCode.z_schedule_default
        (RotatedPlanarCode.initCircuit 3 3 (DepolarizingNoise.fields 0)) =
          Except.ok c' ∧
      c'.instrs = (RotatedPlanarCode.initCircuit 3 3 (DepolarizingNoise.fields 0)).instrs ++ L ∧
      L.countP (fun i => i.isCX) = 4 ∧
      L.countP (fun i => i.isMeasure) = 1 ∧
      L.countP (fun i => i.isReset) = 1 ∧
      L.filter (fun i => i.isMR) =
        [Instr.measure ((RotatedPlanarCode.auxiliary_qubits 3 3).map
            (RotatedPlanarCode.qubit_map 3 3))
          (RotatedPlanarCode.initCircuit 3 3
            (DepolarizingNoise.fields 0)).noise_profile.measurement_flip_prob,
         Instr.reset ((RotatedPlanarCode.auxiliary_qubits 3 3).map
            (RotatedPlanarCode.qubit_map 3 3))] :=
  measure_syndromes_round_shape 3 3
    (RotatedPlanarCode.initCircuit 3 3 (DepolarizingNoise.fields 0)) rfl

/-- Counterexample to C4 as stated: in the instructions appended by one
distance-3 round there is exactly one measurement and exactly one reset, and
no reset occurs before the measurement — the measurement is not preceded in
the log by the corresponding reset; the reset follows it. -/
theorem measure_before_reset_counterexample :
    ∃ c' L, RotatedPlanarCode.measure_syndromes 3 3
        RotatedPlanarCode.x_schedule_default RotatedPlanarCode.z_schedule_default
        (RotatedPlanarCode.initCircuit 3 3 (DepolarizingNoise.fields 0)) =
          Except.ok c' ∧
      c'.instrs = (RotatedPlanarCode.initCircuit 3 3 (DepolarizingNoise.fields 0)).instrs ++ L ∧
      L.countP (fun i => i.isMeasure) = 1 ∧
      L.countP (fun i => i.isReset) = 1 ∧
      (L.takeWhile (fun i => !(i.isMeasure))).any (fun i => i.isReset) = false := by
  obtain ⟨c', hok, hvp, L, hins, hcx, hmr⟩ :=
    RotatedPlanarCode.measure_syndromes_spec 3 3
      RotatedPlanarCode.x_schedule_default RotatedPlanarCode.z_schedule_default
      (RotatedPlanarCode.initCircuit 3 3 (DepolarizingNoise.fields 0)) rfl
  refine ⟨c', L, hok, hins, ?_, ?_, no_reset_before_measure L _ _ _ hmr⟩
  · rw [countP_isMeasure_eq_filter_MR, hmr]
    simp [List.countP_cons, Instr.isMeasure]
  · rw [countP_isReset_eq_filter_MR, hmr]
    simp [List.countP_cons, Instr.isReset]

/-! ## Detector lookback arithmetic across rounds (C1):
RotatedPlanarCode.syndrome_extraction and
RotatedPlanarCodeGadget.syndrome_extraction -/

namespace RotatedPlanarCode

/-- syndrome_extraction: max_lookback = len(self.auxiliary_qubits). -/
def max_lookback (xd zd : ℕ) : ℕ := (auxiliary_qubits xd zd).length

/-- The lookbacks-and-args list built for one repeat round r of
RotatedPlanarCode.syndrome_extraction: for each auxiliary (by enumeration
index) the offset pair [-max_lookback + idx, -2 * max_lookback + idx] with
the auxiliary coordinate and round number as arguments. -/
def interround_lookbacks_and_args (xd zd r : ℕ) : List (List ℤ × (ℚ × ℚ × ℕ)) :=
  (auxiliary_qubits xd zd).enum.map fun p =>
    ([-(max_lookback xd zd : ℤ) + p.1, -2 * (max_lookback xd zd : ℤ) + p.1],
     (p.2.x, p.2.y, r))

/-- The qubits measured by one round of the core variant, in measurement
order: _measure_syndromes_ measures exactly the auxiliary qubits. -/
def round_measurements (xd zd : ℕ) : List Qubit := auxiliary_qubits xd zd

end RotatedPlanarCode

namespace RotatedPlanarCodeGadget

/-- RotatedPlanarCodeGadget._define_auxiliary_ is textually identical to the
plain code's, X part. -/
def x_auxiliary_qubits (xd zd : ℕ) : List Qubit :=
  RotatedPlanarCode.x_auxiliary_qubits xd zd

/-- RotatedPlanarCodeGadget._define_auxiliary_, Z part (identical to plain). -/
def z_auxiliary_qubits (xd zd : ℕ) : List Qubit :=
  RotatedPlanarCode.z_auxiliary_qubits xd zd

/-- self.auxiliary_qubits = X entries then Z entries. -/
def auxiliary_qubits (xd zd : ℕ) : List Qubit :=
  x_auxiliary_qubits xd zd ++ z_auxiliary_qubits xd zd

/-- _define_flags_: Qubit(0.5, 0.5) + qubit for each X auxiliary, in order. -/
def x_flags (xd zd : ℕ) : List Qubit :=
  (x_auxiliary_qubits xd zd).map (fun qubit => Qubit.add ⟨1 / 2, 1 / 2⟩ qubit)

/-- _define_flags_ for the Z auxiliaries. -/
def z_flags (xd zd : ℕ) : List Qubit :=
  (z_auxiliary_qubits xd zd).map (fun qubit => Qubit.add ⟨1 / 2, 1 / 2⟩ qubit)

/-- self.flag_qubits = x_flags + z_flags. -/
def flag_qubits (xd zd : ℕ) : List Qubit := x_flags xd zd ++ z_flags xd zd

/-- syndrome_extraction: max_lookback = len(auxiliary_qubits) +
len(flag_qubits). -/
def max_lookback (xd zd : ℕ) : ℕ :=
  (auxiliary_qubits xd zd).length + (flag_qubits xd zd).length

/-- syndrome_extraction: previous_round_lookback = max_lookback +
len(flag_qubits). The source comment reads: inter-round detectors are done
with current round A ancillae and previous round B ancillae. -/
def previous_round_lookback (xd zd : ℕ) : ℕ :=
  max_lookback xd zd + (flag_qubits xd zd).length

/-- The lookbacks-and-args list built for one repeat round r of
RotatedPlanarCodeGadget.syndrome_extraction. -/
def interround_lookbacks_and_args (xd zd r : ℕ) : List (List ℤ × (ℚ × ℚ × ℕ)) :=
  (auxiliary_qubits xd zd).enum.map fun p =>
    ([-(max_lookback xd zd : ℤ) + p.1, -(previous_round_lookback xd zd : ℤ) + p.1],
     (p.2.x, p.2.y, r))

/-- The qubits measured by one gadget round, in measurement order:
measure_aux_flag_pairs measures the auxiliaries followed by the flags. -/
def round_measurements (xd zd : ℕ) : List Qubit :=
  auxiliary_qubits xd zd ++ flag_qubits xd zd

theorem length_flag_eq_aux (xd zd : ℕ) :
    (flag_qubits xd zd).length = (auxiliary_qubits xd zd).length := by
  simp [flag_qubits, x_flags, z_flags, auxiliary_qubits]

end RotatedPlanarCodeGadget

/-- A negative lookback offset resolved against the end of a measurement
history, as stim resolves rec targets: offset -1 is the most recent outcome. -/
def recLookup (history : List Qubit) (offset : ℤ) : Option Qubit :=
  if 0 ≤ (history.length : ℤ) + offset then
    history[((history.length : ℤ) + offset).toNat]? else none

theorem plain_prev_lookup (xd zd idx : ℕ)
    (hidx : idx < (RotatedPlanarCode.auxiliary_qubits xd zd).length) :
    recLookup (RotatedPlanarCode.round_measurements xd zd ++
        RotatedPlanarCode.round_measurements xd zd)
      (-2 * (RotatedPlanarCode.max_lookback xd zd : ℤ) + idx) =
      (RotatedPlanarCode.auxiliary_qubits xd zd)[idx]? := by
  have hN : (RotatedPlanarCode.round_measurements xd zd).length =
    (RotatedPlanarCode.auxiliary_qubits xd zd).length := rfl
  have hM : RotatedPlanarCode.max_lookback xd zd =
    (RotatedPlanarCode.auxiliary_qubits xd zd).length := rfl
  unfold recLookup
  rw [List.length_append, hN, hM]
  rw [if_pos (by push_cast; omega)]
  have hk : ((((RotatedPlanarCode.auxiliary_qubits xd zd).length +
      (RotatedPlanarCode.auxiliary_qubits xd zd).length : ℕ) : ℤ) +
        (-2 * ((RotatedPlanarCode.auxiliary_qubits xd zd).length : ℤ) + idx)).toNat =
      idx := by push_cast; omega
  rw [hk, List.getElem?_append, if_pos (by rw [hN]; exact hidx)]
  rfl

theorem plain_curr_lookup (xd zd idx : ℕ)
    (hidx : idx < (RotatedPlanarCode.auxiliary_qubits xd zd).length) :
    recLookup (RotatedPlanarCode.round_measurements xd zd ++
        RotatedPlanarCode.round_measurements xd zd)
      (-(RotatedPlanarCode.max_lookback xd zd : ℤ) + idx) =
      (RotatedPlanarCode.auxiliary_qubits xd zd)[idx]? := by
  have hN : (RotatedPlanarCode.round_measurements xd zd).length =
    (RotatedPlanarCode.auxiliary_qubits xd zd).length := rfl
  have hM : RotatedPlanarCode.max_lookback xd zd =
    (RotatedPlanarCode.auxiliary_qubits xd zd).length := rfl
  unfold recLookup
  rw [List.length_append, hN, hM]
  rw [if_pos (by push_cast; omega)]
  have hk : ((((RotatedPlanarCode.auxiliary_qubits xd zd).length +
      (RotatedPlanarCode.auxiliary_qubits xd zd).length : ℕ) : ℤ) +
        (-((RotatedPlanarCode.auxiliary_qubits xd zd).length : ℤ) + idx)).toNat =
      (RotatedPlanarCode.auxiliary_qubits xd zd).length + idx := by push_cast; omega
  rw [hk, List.getElem?_append_right (by rw [hN]; omega), hN]
  have hsub : (RotatedPlanarCode.auxiliary_qubits xd zd).length + idx -
      (RotatedPlanarCode.auxiliary_qubits xd zd).length = idx := by omega
  rw [hsub]
  rfl

theorem gadget_prev_lookup (xd zd idx : ℕ)
    (hidx : idx < (RotatedPlanarCodeGadget.auxiliary_qubits xd zd).length) :
    recLookup (RotatedPlanarCodeGadget.round_measurements xd zd ++
        RotatedPlanarCodeGadget.round_measurements xd zd)
      (-(RotatedPlanarCodeGadget.previous_round_lookback xd zd : ℤ) + idx) =
      (RotatedPlanarCodeGadget.flag_qubits xd zd)[idx]? := by
  have hF := RotatedPlanarCodeGadget.length_flag_eq_aux xd zd
  have hB : (RotatedPlanarCodeGadget.round_measurements xd zd).length =
      (RotatedPlanarCodeGadget.auxiliary_qubits xd zd).length +
      (RotatedPlanarCodeGadget.flag_qubits xd zd).length := by
    simp [RotatedPlanarCodeGadget.round_measurements]
  have hP : RotatedPlanarCodeGadget.previous_round_lookback xd zd =
      ((RotatedPlanarCodeGadget.auxiliary_qubits xd zd).length +
        (RotatedPlanarCodeGadget.flag_qubits xd zd).length) +
      (RotatedPlanarCodeGadget.flag_qubits xd zd).length := rfl
  unfold recLookup
  rw [List.length_append, hB, hP]
  rw [if_pos (by push_cast; omega)]
  have hk : (((((RotatedPlanarCodeGadget.auxiliary_qubits xd zd).length +
      (RotatedPlanarCodeGadget.flag_qubits xd zd).length) +
      ((RotatedPlanarCodeGadget.auxiliary_qubits xd zd).length +
      (RotatedPlanarCodeGadget.flag_qubits xd zd).length) : ℕ) : ℤ) +
        (-((((RotatedPlanarCodeGadget.auxiliary_qubits xd zd).length +
          (RotatedPlanarCodeGadget.flag_qubits xd zd).length) +
          (RotatedPlanarCodeGadget.flag_qubits xd zd).length : ℕ) : ℤ) + idx)).toNat =
      (RotatedPlanarCodeGadget.auxiliary_qubits xd zd).length + idx := by
    push_cast
    omega
  rw [hk, List.getElem?_append, if_pos (by rw [hB]; omega)]
  show (RotatedPlanarCodeGadget.auxiliary_qubits xd zd ++
    RotatedPlanarCodeGadget.flag_qubits xd zd)[_]? = _
  rw [List.getElem?_append_right (by omega)]
  have hsub : (RotatedPlanarCodeGadget.auxiliary_qubits xd zd).length + idx -
      (RotatedPlanarCodeGadget.auxiliary_qubits xd zd).length = idx := by omega
  rw [hsub]

theorem gadget_curr_lookup (xd zd idx : ℕ)
    (hidx : idx < (RotatedPlanarCodeGadget.auxiliary_qubits xd zd).length) :
    recLookup (RotatedPlanarCodeGadget.round_measurements xd zd ++
        RotatedPlanarCodeGadget.round_measurements xd zd)
      (-(RotatedPlanarCodeGadget.max_lookback xd zd : ℤ) + idx) =
      (RotatedPlanarCodeGadget.auxiliary_qubits xd zd)[idx]? := by
  have hF := RotatedPlanarCodeGadget.length_flag_eq_aux xd zd
  have hB : (RotatedPlanarCodeGadget.round_measurements xd zd).length =
      (RotatedPlanarCodeGadget.auxiliary_qubits xd zd).length +
      (RotatedPlanarCodeGadget.flag_qubits xd zd).length := by
    simp [RotatedPlanarCodeGadget.round_measurements]
  have hM : RotatedPlanarCodeGadget.max_lookback xd zd =
      (RotatedPlanarCodeGadget.auxiliary_qubits xd zd).length +
      (RotatedPlanarCodeGadget.flag_qubits xd zd).length := rfl
  unfold recLookup
  rw [List.length_append, hB, hM]
  rw [if_pos (by push_cast; omega)]
  have hk : (((((RotatedPlanarCodeGadget.auxiliary_qubits xd zd).length +
      (RotatedPlanarCodeGadget.flag_qubits xd zd).length) +
      ((RotatedPlanarCodeGadget.auxiliary_qubits xd zd).length +
      (RotatedPlanarCodeGadget.flag_qubits xd zd).length) : ℕ) : ℤ) +
        (-(((RotatedPlanarCodeGadget.auxiliary_qubits xd zd).length +
          (RotatedPlanarCodeGadget.flag_qubits xd zd).length : ℕ) : ℤ) + idx)).toNat =
      ((RotatedPlanarCodeGadget.auxiliary_qubits xd zd).length +
        (RotatedPlanarCodeGadget.flag_qubits xd zd).length) + idx := by
    push_cast
    omega
  rw [hk, List.getElem?_append_right (by rw [hB]; omega), hB]
  have hsub : ((RotatedPlanarCodeGadget.auxiliary_qubits xd zd).length +
      (RotatedPlanarCodeGadget.flag_qubits xd zd).length) + idx -
      ((RotatedPlanarCodeGadget.auxiliary_qubits xd zd).length +
       (RotatedPlanarCodeGadget.flag_qubits xd zd).length) = idx := by omega
  rw [hsub]
  show (RotatedPlanarCodeGadget.auxiliary_qubits xd zd ++
    RotatedPlanarCodeGadget.flag_qubits xd zd)[idx]? = _
  rw [List.getElem?_append, if_pos hidx]

theorem plain_interround_entry (xd zd r idx : ℕ)
    (hidx : idx < (RotatedPlanarCode.auxiliary_qubits xd zd).length) :
    ((RotatedPlanarCode.interround_lookbacks_and_args xd zd r)[idx]?).map Prod.fst =
      some [-(RotatedPlanarCode.max_lookback xd zd : ℤ) + idx,
            -2 * (RotatedPlanarCode.max_lookback xd zd : ℤ) + idx] := by
  unfold RotatedPlanarCode.interround_lookbacks_and_args
  rw [List.getElem?_map, List.getElem?_enum]
  obtain ⟨a, ha⟩ : ∃ a, (RotatedPlanarCode.auxiliary_qubits xd zd)[idx]? = some a :=
    ⟨_, List.getElem?_eq_getElem hidx⟩
  rw [ha]
  rfl

theorem gadget_interround_entry (xd zd r idx : ℕ)
    (hidx : idx < (RotatedPlanarCodeGadget.auxiliary_qubits xd zd).length) :
    ((RotatedPlanarCodeGadget.interround_lookbacks_and_args xd zd r)[idx]?).map Prod.fst =
      some [-(RotatedPlanarCodeGadget.max_lookback xd zd : ℤ) + idx,
            -(RotatedPlanarCodeGadget.previous_round_lookback xd zd : ℤ) + idx] := by
  unfold RotatedPlanarCodeGadget.interround_lookbacks_and_args
  rw [List.getElem?_map, List.getElem?_enum]
  obtain ⟨a, ha⟩ : ∃ a, (RotatedPlanarCodeGadget.auxiliary_qubits xd zd)[idx]? = some a :=
    ⟨_, List.getElem?_eq_getElem hidx⟩
  rw [ha]
  rfl

/-- C1 (amended): in repeat rounds, each across-round detector of the plain
RotatedPlanarCode pairs offsets [-N + idx, -2N + idx] where
N = len(auxiliary_qubits) is the per-round measurement count, so the
separation is N and, over a two-round measurement history, both offsets
resolve to the same auxiliary qubit, one round apart. In the gadget variant
(RotatedPlanarCodeGadget) the per-round measurement count is
len(auxiliary_qubits) + len(flag_qubits), but the separation between the two
offsets is only len(flag_qubits) (equal to len(auxiliary_qubits), i.e. half
the per-round count): the first offset resolves to the current round's
auxiliary outcome, while the second resolves to the PREVIOUS round's flag
outcome — not the previous auxiliary outcome — matching the source comment
that inter-round detectors pair current-round A ancillae with previous-round
B ancillae. -/
theorem interround_lookback_separation (xd zd r idx : ℕ)
    (hidx : idx < (RotatedPlanarCode.auxiliary_qubits xd zd).length) :
    (((RotatedPlanarCode.interround_lookbacks_and_args xd zd r)[idx]?).map Prod.fst =
      some [-(RotatedPlanarCode.max_lookback xd zd : ℤ) + idx,
            -2 * (RotatedPlanarCode.max_lookback xd zd : ℤ) + idx]) ∧
    ((-(RotatedPlanarCode.max_lookback xd zd : ℤ) + idx) -
      (-2 * (RotatedPlanarCode.max_lookback xd zd : ℤ) + idx) =
        ((RotatedPlanarCode.round_measurements xd zd).length : ℤ)) ∧
    (recLookup (RotatedPlanarCode.round_measurements xd zd ++
        RotatedPlanarCode.round_measurements xd zd)
      (-(RotatedPlanarCode.max_lookback xd zd : ℤ) + idx) =
      (RotatedPlanarCode.auxiliary_qubits xd zd)[idx]?) ∧
    (recLookup (RotatedPlanarCode.round_measurements xd zd ++
        RotatedPlanarCode.round_measurements xd zd)
      (-2 * (RotatedPlanarCode.max_lookback xd zd : ℤ) + idx) =
      (RotatedPlanarCode.auxiliary_qubits xd zd)[idx]?) ∧
    (((RotatedPlanarCodeGadget.interround_lookbacks_and_args xd zd r)[idx]?).map
        Prod.fst =
      some [-(RotatedPlanarCodeGadget.max_lookback xd zd : ℤ) + idx,
            -(RotatedPlanarCodeGadget.previous_round_lookback xd zd : ℤ) + idx]) ∧
    ((-(RotatedPlanarCodeGadget.max_lookback xd zd : ℤ) + idx) -
      (-(RotatedPlanarCodeGadget.previous_round_lookback xd zd : ℤ) + idx) =
        ((RotatedPlanarCodeGadget.flag_qubits xd zd).length : ℤ)) ∧
    ((RotatedPlanarCodeGadget.flag_qubits xd zd).length =
      (RotatedPlanarCodeGadget.auxiliary_qubits xd zd).length) ∧
    ((RotatedPlanarCodeGadget.round_measurements xd zd).length =
      (RotatedPlanarCodeGadget.auxiliary_qubits xd zd).length +
      (RotatedPlanarCodeGadget.flag_qubits xd zd).length) ∧
    (recLookup (RotatedPlanarCodeGadget.round_measurements xd zd ++
        RotatedPlanarCodeGadget.round_measurements xd zd)
      (-(RotatedPlanarCodeGadget.max_lookback xd zd : ℤ) + idx) =
      (RotatedPlanarCodeGadget.auxiliary_qubits xd zd)[idx]?) ∧
    (recLookup (RotatedPlanarCodeGadget.round_measurements xd zd ++
        RotatedPlanarCodeGadget.round_measurements xd zd)
      (-(RotatedPlanarCodeGadget.previous_round_lookback xd zd : ℤ) + idx) =
      (RotatedPlanarCodeGadget.flag_qubits xd zd)[idx]?) := by
  have hidxg : idx < (RotatedPlanarCodeGadget.auxiliary_qubits xd zd).length := hidx
  refine ⟨plain_interround_entry xd zd r idx hidx, ?_,
    plain_curr_lookup xd zd idx hidx, plain_prev_lookup xd zd idx hidx,
    gadget_interround_entry xd zd r idx hidxg, ?_,
    RotatedPlanarCodeGadget.length_flag_eq_aux xd zd, ?_,
    gadget_curr_lookup xd zd idx hidxg, gadget_prev_lookup xd zd idx hidxg⟩
  · have : (RotatedPlanarCode.round_measurements xd zd).length =
      RotatedPlanarCode.max_lookback xd zd := rfl
    rw [this]
    ring
  · have : RotatedPlanarCodeGadget.previous_round_lookback xd zd =
      RotatedPlanarCodeGadget.max_lookback xd zd +
        (RotatedPlanarCodeGadget.flag_qubits xd zd).length := rfl
    rw [this]
    push_cast
    ring
  · simp [RotatedPlanarCodeGadget.round_measurements]

/-- Witness for interround_lookback_separation at distance 3, round 1,
auxiliary index 0. -/
theorem interround_lookback_separation_witness :
    (((RotatedPlanarCode.interround_lookbacks_and_args 3 3 1)[0]?).map Prod.fst =
      some [-(RotatedPlanarCode.max_lookback 3 3 : ℤ) + 0,
            -2 * (RotatedPlanarCode.max_lookback 3 3 : ℤ) + 0]) ∧
    ((-(RotatedPlanarCode.max_lookback 3 3 : ℤ) + 0) -
      (-2 * (RotatedPlanarCode.max_lookback 3 3 : ℤ) + 0) =
        ((RotatedPlanarCode.round_measurements 3 3).length : ℤ)) ∧
    (recLookup (RotatedPlanarCode.round_measurements 3 3 ++
        RotatedPlanarCode.round_measurements 3 3)
      (-(RotatedPlanarCode.max_lookback 3 3 : ℤ) + 0) =
      (RotatedPlanarCode.auxiliary_qubits 3 3)[0]?) ∧
    (recLookup (RotatedPlanarCode.round_measurements 3 3 ++
        RotatedPlanarCode.round_measurements 3 3)
      (-2 * (RotatedPlanarCode.max_lookback 3 3 : ℤ) + 0) =
      (RotatedPlanarCode.auxiliary_qubits 3 3)[0]?) ∧
    (((RotatedPlanarCodeGadget.interround_lookbacks_and_args 3 3 1)[0]?).map
        Prod.fst =
      some [-(RotatedPlanarCodeGadget.max_lookback 3 3 : ℤ) + 0,
            -(RotatedPlanarCodeGadget.previous_round_lookback 3 3 : ℤ) + 0]) ∧
    ((-(RotatedPlanarCodeGadget.max_lookback 3 3 : ℤ) + 0) -
      (-(RotatedPlanarCodeGadget.previous_round_lookback 3 3 : ℤ) + 0) =
        ((RotatedPlanarCodeGadget.flag_qubits 3 3).length : ℤ)) ∧
    ((RotatedPlanarCodeGadget.flag_qubits 3 3).length =
      (RotatedPlanarCodeGadget.auxiliary_qubits 3 3).length) ∧
    ((RotatedPlanarCodeGadget.round_measurements 3 3).length =
      (RotatedPlanarCodeGadget.auxiliary_qubits 3 3).length +
      (RotatedPlanarCodeGadget.flag_qubits 3 3).length) ∧
    (recLookup (RotatedPlanarCodeGadget.round_measurements 3 3 ++
        RotatedPlanarCodeGadget.round_measurements 3 3)
      (-(RotatedPlanarCodeGadget.max_lookback 3 3 : ℤ) + 0) =
      (RotatedPlanarCodeGadget.auxiliary_qubits 3 3)[0]?) ∧
    (recLookup (RotatedPlanarCodeGadget.round_measurements 3 3 ++
        RotatedPlanarCodeGadget.round_measurements 3 3)
      (-(RotatedPlanarCodeGadget.previous_round_lookback 3 3 : ℤ) + 0) =
      (RotatedPlanarCodeGadget.flag_qubits 3 3)[0]?) :=
  interround_lookback_separation 3 3 1 0 (by decide)

/-- Counterexample to C1 as stated: for the distance-3 gadget variant the two
lookback offsets of the first across-round detector are -16 and -24, separated
by 8 = len(flag_qubits), not by the per-round measurement count
len(auxiliary_qubits) + len(flag_qubits) = 16; the second offset resolves to a
flag-qubit outcome of the previous round, not an auxiliary outcome. -/
theorem gadget_lookback_counterexample :
    RotatedPlanarCodeGadget.max_lookback 3 3 = 16 ∧
    RotatedPlanarCodeGadget.previous_round_lookback 3 3 = 24 ∧
    ((-(RotatedPlanarCodeGadget.max_lookback 3 3 : ℤ) + 0) -
      (-(RotatedPlanarCodeGadget.previous_round_lookback 3 3 : ℤ) + 0) = 8) ∧
    ((RotatedPlanarCodeGadget.auxiliary_qubits 3 3).length +
      (RotatedPlanarCodeGadget.flag_qubits 3 3).length = 16) ∧
    ((8 : ℤ) ≠ 16) ∧
    recLookup (RotatedPlanarCodeGadget.round_measurements 3 3 ++
        RotatedPlanarCodeGadget.round_measurements 3 3)
      (-(RotatedPlanarCodeGadget.previous_round_lookback 3 3 : ℤ) + 0) =
      (RotatedPlanarCodeGadget.flag_qubits 3 3)[0]? :=
  ⟨by decide, by decide, by decide, by decide, by decide,
    gadget_prev_lookup 3 3 0 (by decide)⟩
